import Mathlib

/-!
Shallow embedding of the colour-generator backend (`server.js`, with the
candidate-analysis entry points of `image-analysis.js` treated as an external
provider capability).  All JavaScript numbers that the embedded code paths use
are exact rationals, machine-integer bit operations are modelled over `ℤ`
with explicit reduction modulo `2^32`, and JavaScript strings are `String`.
Definitions follow the source line by line; theorems about the selection
engine, the colour math and the candidate store follow after the definitions.
-/

/-! ## JavaScript string helpers -/

/-- JS `String.prototype.toLowerCase` restricted to ASCII, which is the alphabet
the tokenizer cares about (`server.js` line 85). -/
def jsToLower (s : String) : String := s.map Char.toLower

/-- JS `String.prototype.toUpperCase` restricted to ASCII (used for the
case-insensitive colour comparison in `server.js` line 401). -/
def jsToUpper (s : String) : String := s.map Char.toUpper

/-! ## Hex parsing and rendering -/

/-- Value of one hex digit, as `parseInt(-, 16)` reads it (either case). -/
def hexDigitVal (c : Char) : ℕ :=
  if '0' ≤ c ∧ c ≤ '9' then c.toNat - '0'.toNat
  else if 'a' ≤ c ∧ c ≤ 'f' then c.toNat - 'a'.toNat + 10
  else if 'A' ≤ c ∧ c ≤ 'F' then c.toNat - 'A'.toNat + 10
  else 0

/-- `parseInt(hex.substring(i, i+2), 16)` for the two hex digits starting at
character index `i` (`server.js` lines 209-215, 227-229). -/
def parseHexByte (s : String) (i : ℕ) : ℕ :=
  16 * hexDigitVal (s.toList.getD i '0') + hexDigitVal (s.toList.getD (i + 1) '0')

/-- The three channel bytes of a `#RRGGBB` string. -/
def channelsOf (s : String) : ℕ × ℕ × ℕ :=
  (parseHexByte s 1, parseHexByte s 3, parseHexByte s 5)

/-- Uppercase hex digit for a value below 16. -/
def hexDigitCharUpper (n : ℕ) : Char :=
  if n < 10 then Char.ofNat ('0'.toNat + n) else Char.ofNat ('A'.toNat + (n - 10))

/-- Two-digit uppercase hex rendering of a byte.  This is
`('00' + value.toString(16)).substr(-2)` followed by the `toUpperCase()` the
source applies to the assembled colour string, for values in `0..255`. -/
def toHexByte (n : ℕ) : String :=
  String.mk [hexDigitCharUpper (n / 16 % 16), hexDigitCharUpper (n % 16)]

/-- JS `Math.round` (round half toward positive infinity). -/
def jsRound (x : ℚ) : ℤ := ⌊x + 1 / 2⌋

/-- Canonical `ColorHex` shape from the data model: `'#'` followed by exactly
six uppercase hex digits. -/
def isHexDigitUpper (c : Char) : Bool :=
  decide (('0' ≤ c ∧ c ≤ '9') ∨ ('A' ≤ c ∧ c ≤ 'F'))

/-- Validity test for a canonical colour string. -/
def isValidColorHex (s : String) : Bool :=
  match s.toList with
  | '#' :: rest => rest.length == 6 && rest.all isHexDigitUpper
  | _ => false

/-! ## Colour lexicon (`server.js` lines 52-81) -/

/-- One lexicon entry: exact hex plus the allowed hue ranges on the 0-255
scale. -/
structure ColorEntry where
  hex : String
  range : List (ℚ × ℚ)
deriving DecidableEq, Repr

/-- The `colorNames` dictionary, in source order. -/
def colorNames : List (String × ColorEntry) :=
  [ ("red", ⟨"#FF0000", [(0, 20), (235, 255)]⟩)
  , ("green", ⟨"#008000", [(60, 110)]⟩)
  , ("blue", ⟨"#0000FF", [(150, 190)]⟩)
  , ("yellow", ⟨"#FFFF00", [(30, 55)]⟩)
  , ("cyan", ⟨"#00FFFF", [(110, 145)]⟩)
  , ("magenta", ⟨"#FF00FF", [(195, 230)]⟩)
  , ("white", ⟨"#FFFFFF", [(0, 255)]⟩)
  , ("black", ⟨"#000000", [(0, 255)]⟩)
  , ("gray", ⟨"#808080", [(0, 255)]⟩)
  , ("grey", ⟨"#808080", [(0, 255)]⟩)
  , ("orange", ⟨"#FFA500", [(20, 45)]⟩)
  , ("purple", ⟨"#800080", [(180, 220)]⟩)
  , ("pink", ⟨"#FFC0CB", [(220, 250)]⟩)
  , ("brown", ⟨"#A52A2A", [(0, 30)]⟩)
  , ("lime", ⟨"#00FF00", [(70, 95)]⟩)
  , ("navy", ⟨"#000080", [(150, 180)]⟩)
  , ("teal", ⟨"#008080", [(110, 140)]⟩)
  , ("maroon", ⟨"#800000", [(240, 255), (0, 10)]⟩)
  , ("olive", ⟨"#808000", [(40, 70)]⟩)
  , ("silver", ⟨"#C0C0C0", [(0, 255)]⟩)
  , ("gold", ⟨"#FFD700", [(30, 50)]⟩)
  , ("violet", ⟨"#EE82EE", [(190, 230)]⟩)
  , ("indigo", ⟨"#4B0082", [(180, 200)]⟩)
  , ("turquoise", ⟨"#40E0D0", [(110, 140)]⟩)
  , ("beige", ⟨"#F5F5DC", [(25, 45)]⟩)
  , ("mint", ⟨"#98FF98", [(90, 120)]⟩)
  , ("lavender", ⟨"#E6E6FA", [(170, 200)]⟩)
  , ("coral", ⟨"#FF7F50", [(10, 30)]⟩)
  ]

/-- Own-key part of the property access `colorNames[token]`: the entry for a
key of the object literal.  The full JS access also reaches inherited
`Object.prototype` members; that part is modelled by `colorNamesTruthy`
below, and the two coincide on every token that does not name such a
member. -/
def colorNamesLookup (name : String) : Option ColorEntry :=
  (colorNames.find? (fun e => e.1 == name)).map (fun e => e.2)

/-- The own property names of `Object.prototype`: `colorNames[token]` in the
source is a JS property access on an object literal, so beyond the keys of
the literal it also reaches these inherited members, each of which is a
truthy function or accessor value carrying neither `hex` nor `range`. -/
def objectPrototypeProps : List String :=
  [ "constructor", "hasOwnProperty", "isPrototypeOf", "propertyIsEnumerable"
  , "toLocaleString", "toString", "valueOf", "__defineGetter__"
  , "__defineSetter__", "__lookupGetter__", "__lookupSetter__", "__proto__" ]

/-- Truthiness of the full JS property access `colorNames[token]`: true for
an own lexicon key and also for an inherited `Object.prototype` member
name. -/
def colorNamesTruthy (name : String) : Bool :=
  (colorNamesLookup name).isSome || objectPrototypeProps.contains name

/-! ## Query classifier (`server.js` lines 83-101) -/

/-- `tokenizeQuery`: lowercase, split on runs of non-letters, drop empties. -/
def tokenizeQuery (q : String) : List String :=
  ((jsToLower q).split (fun c => !('a' ≤ c && c ≤ 'z'))).filter (fun t => t ≠ "")

/-- `findRawColorName`: first token that is a lexicon key. -/
def findRawColorName (q : String) : Option String :=
  (tokenizeQuery q).find? (fun t => (colorNamesLookup t).isSome)

/-- `isSingleRawColorQuery`: exactly one token and it is a lexicon key. -/
def isSingleRawColorQuery (q : String) : Bool :=
  match tokenizeQuery q with
  | [t] => (colorNamesLookup t).isSome
  | _ => false

/-- `isSingleRawColorQuery` (line 100, `tokens.length === 1 &&
!!colorNames[tokens[0]]`) with the property access modelled in full,
inherited members included. -/
def isSingleRawColorQueryJS (q : String) : Bool :=
  match tokenizeQuery q with
  | [t] => colorNamesTruthy t
  | _ => false

/-- `findRawColorName` (lines 91-97) with the property access modelled in
full, inherited members included. -/
def findRawColorNameJS (q : String) : Option String :=
  (tokenizeQuery q).find? colorNamesTruthy

/-! ## Hash fallback (`server.js` lines 37-48) -/

/-- JS `ToInt32`: reduce an exact integer to the signed 32-bit range. -/
def toInt32 (z : ℤ) : ℤ := (z + 2 ^ 31) % 2 ^ 32 - 2 ^ 31

/-- One step of the accumulator update
`hash = str.charCodeAt(i) + ((hash << 5) - hash)`.  The shift coerces `hash`
to int32 and wraps the shifted value back to int32; the outer sum and
difference are exact JS number arithmetic. -/
def hashStep (h : ℤ) (code : ℕ) : ℤ := (code : ℤ) + (toInt32 (toInt32 h * 32) - h)

/-- The string hash accumulated over UTF-16 code units (ASCII here). -/
def jsHash (s : String) : ℤ := s.toList.foldl (fun h c => hashStep h c.toNat) 0

/-- Byte `i` of the hash: `(hash >> (i * 8)) & 0xFF` (signed 32-bit shift). -/
def hashByte (h : ℤ) (i : ℕ) : ℕ := (((toInt32 h).fdiv (2 ^ (i * 8))) % 256).toNat

/-- `getHashColor`: deterministic fallback colour from a string hash. -/
def getHashColor (s : String) : String :=
  let h := jsHash s
  "#" ++ toHexByte (hashByte h 0) ++ toHexByte (hashByte h 1) ++ toHexByte (hashByte h 2)

/-! ## Colour math (`server.js` lines 207-306) -/

/-- `blendColors`: per-channel linear interpolation followed by re-rendering.
The source assembles the string as
`((1 << 24) + (r << 16) + (g << 8) + b).toString(16).slice(1).toUpperCase()`,
which equals the concatenation of the three two-digit bytes for channel
values in `0..255` (always the case here, since parsed channels are at most
255 and the blend weight used by the engine lies in `[0,1]`). -/
def blendColors (color1 color2 : String) (weight1 : ℚ) : String :=
  let (r1, g1, b1) := channelsOf color1
  let (r2, g2, b2) := channelsOf color2
  let r := jsRound ((r1 : ℚ) * weight1 + (r2 : ℚ) * (1 - weight1))
  let g := jsRound ((g1 : ℚ) * weight1 + (g2 : ℚ) * (1 - weight1))
  let b := jsRound ((b1 : ℚ) * weight1 + (b2 : ℚ) * (1 - weight1))
  "#" ++ toHexByte r.toNat ++ toHexByte g.toNat ++ toHexByte b.toNat

/-- Hue/saturation/lightness triple, `h` normalised to `[0,1)`. -/
structure Hsl where
  h : ℚ
  s : ℚ
  l : ℚ
deriving DecidableEq, Repr

/-- JS `Math.max` of two numbers (kept as an explicit conditional so that the
kernel can evaluate it; `jsMax_eq` identifies it with `max`). -/
def jsMax (x y : ℚ) : ℚ := if x < y then y else x

/-- JS `Math.min` of two numbers. -/
def jsMin (x y : ℚ) : ℚ := if y < x then y else x

lemma jsMax_eq (x y : ℚ) : jsMax x y = max x y := by
  unfold jsMax
  split_ifs with h
  · exact (max_eq_right h.le).symm
  · exact (max_eq_left (not_lt.1 h)).symm

lemma jsMin_eq (x y : ℚ) : jsMin x y = min x y := by
  unfold jsMin
  split_ifs with h
  · exact (min_eq_right h.le).symm
  · exact (min_eq_left (not_lt.1 h)).symm

/-- RGB-to-HSL extraction, exactly as in `shiftHue` lines 231-245 (the JS
`switch (max)` matches the first case whose value equals `max`). -/
def rgbToHsl (r g b : ℚ) : Hsl :=
  let mx := jsMax r (jsMax g b)
  let mn := jsMin r (jsMin g b)
  let l := (mx + mn) / 2
  if mx = mn then ⟨0, 0, l⟩
  else
    let d := mx - mn
    let s := if l > 1 / 2 then d / (2 - mx - mn) else d / (mx + mn)
    let h :=
      if mx = r then (g - b) / d + (if g < b then (6 : ℚ) else 0)
      else if mx = g then (b - r) / d + 2
      else (r - g) / d + 4
    ⟨h / 6, s, l⟩

/-- The `hue2rgb` helper (lines 287-294); the two `t` adjustments are applied
sequentially, each at most once. -/
def hue2rgb (p q t : ℚ) : ℚ :=
  let t1 := if t < 0 then t + 1 else t
  let t2 := if t1 > 1 then t1 - 1 else t1
  if t2 < 1 / 6 then p + (q - p) * 6 * t2
  else if t2 < 1 / 2 then q
  else if t2 < 2 / 3 then p + (q - p) * (2 / 3 - t2) * 6
  else p

/-- HSL-to-RGB conversion (lines 284-303), channels still exact rationals. -/
def hslToRgb (h s l : ℚ) : ℚ × ℚ × ℚ :=
  let q := if l < 1 / 2 then l * (1 + s) else l + s - l * s
  let p := 2 * l - q
  (hue2rgb p q (h + 1 / 3), hue2rgb p q h, hue2rgb p q (h - 1 / 3))

/-- Body of the first fold-back loop, `hue255 = min + (hue255 - max)`
(line 272). -/
def foldDownStep (mn mx h : ℚ) : ℚ := mn + (h - mx)

/-- Body of the second fold-back loop, `hue255 = max - (min - hue255)`
(line 273). -/
def foldUpStep (mn mx h : ℚ) : ℚ := mx - (mn - h)

/-- Denotation of `while (hue255 > max) hue255 = min + (hue255 - max)`.
Each pass subtracts exactly `mx - mn`, so for `mn < mx` the loop runs
`⌈(h - mx) / (mx - mn)⌉` times; the closed form below is proved equal to the
iterated loop body in `foldDown_iterate`. -/
def foldDown (mn mx h : ℚ) : ℚ :=
  if h ≤ mx then h else h - (⌈(h - mx) / (mx - mn)⌉ : ℤ) * (mx - mn)

/-- Denotation of `while (hue255 < min) hue255 = max - (min - hue255)`;
see `foldUp_iterate`. -/
def foldUp (mn mx h : ℚ) : ℚ :=
  if mn ≤ h then h else h + (⌈(mn - h) / (mx - mn)⌉ : ℤ) * (mx - mn)

/-- The range-selection scan (lines 255-265): first declared range containing
the current hue, else the first declared range. -/
def selectRange (hue : ℚ) (ranges : List (ℚ × ℚ)) : ℚ × ℚ :=
  match ranges.find? (fun r => decide (r.1 ≤ hue) && decide (hue ≤ r.2)) with
  | some r => r
  | none => ranges.headD (0, 0)

/-- Shift-within-range: add the degree, then fold the result back into the
selected sub-range (lines 266-273). -/
def rangedHue (hue degree : ℚ) (ranges : List (ℚ × ℚ)) : ℚ :=
  foldUp (selectRange hue ranges).1 (selectRange hue ranges).2
    (foldDown (selectRange hue ranges).1 (selectRange hue ranges).2 (hue + degree))

/-- The global wrap branch (lines 276-280): at most one correction by 255. -/
def wrapGlobal (hue : ℚ) : ℚ :=
  if hue > 255 then hue - 255 else if hue < 0 then hue + 255 else hue

/-- Exact-arithmetic core of `shiftHue`: everything except the final
`Math.round`-based hex quantisation. -/
def shiftHueCore (r g b degree : ℚ) (ranges : Option (List (ℚ × ℚ))) : ℚ × ℚ × ℚ :=
  let hsl := rgbToHsl r g b
  let hue255 := hsl.h * 255
  let newHue :=
    match ranges with
    | some rs => if 0 < rs.length then rangedHue hue255 degree rs else wrapGlobal (hue255 + degree)
    | none => wrapGlobal (hue255 + degree)
  hslToRgb (newHue / 255) hsl.s hsl.l

/-- `shiftHue(hex, degree, ranges)` (lines 226-306): parse, shift the hue on
the 0-255 scale (within ranges when supplied, else with the global wrap), and
re-render with per-channel rounding. -/
def shiftHue (hex : String) (degree : ℚ) (ranges : Option (List (ℚ × ℚ))) : String :=
  let c := channelsOf hex
  let out := shiftHueCore ((c.1 : ℚ) / 255) ((c.2.1 : ℚ) / 255) ((c.2.2 : ℚ) / 255) degree ranges
  "#" ++ toHexByte (jsRound (out.1 * 255)).toNat ++ toHexByte (jsRound (out.2.1 * 255)).toNat
    ++ toHexByte (jsRound (out.2.2 * 255)).toNat

/-! ## Candidate store (`server.js` lines 167-205) -/

/-- A cache record: ordered candidate list, seen set (as the list of values
in insertion order, compared with string equality like the JS `Set`), and
page counter. -/
structure CacheRecord where
  candidates : List String
  seen : List String
  pagesLoaded : ℕ
deriving DecidableEq, Repr

/-- Result shape of `getPopularCandidateForStep`. -/
structure StoreResult where
  candidate : Option String
  candidates : List String
  index : ℕ
deriving DecidableEq, Repr

/-- The inner `for (const candidate of candidates)` append loop
(lines 184-190): append each colour not already in `seen`. -/
def addCandidates (rec : CacheRecord) (page : List String) : CacheRecord :=
  page.foldl
    (fun r c =>
      if r.seen.contains c then r
      else { r with seen := r.seen ++ [c], candidates := r.candidates ++ [c] })
    rec

/-- Page budget `maxPages` (line 169). -/
def maxPages : ℕ := 10

/-- The fetch-and-extend `while` loop (lines 173-198).  `provider page` is the
candidate list `analyzeColorFromQuery` yields for the page at offset
`page * pageSize` (`none` for a null result).  The loop increments
`pagesLoaded` on every pass and stops as soon as the target index is covered,
the page budget is exhausted, or a page yields no candidates, so `maxPages`
passes of fuel always suffice; the recursion is on explicit fuel. -/
def extendLoop (provider : ℕ → Option (List String)) (targetIndex : ℕ) :
    ℕ → CacheRecord → CacheRecord
  | 0, rec => rec
  | fuel + 1, rec =>
    if rec.candidates.length ≤ targetIndex ∧ rec.pagesLoaded < maxPages then
      match provider rec.pagesLoaded with
      | some page =>
        let rec1 := { rec with pagesLoaded := rec.pagesLoaded + 1 }
        if page ≠ [] then extendLoop provider targetIndex fuel (addCandidates rec1 page)
        else rec1
      | none => { rec with pagesLoaded := rec.pagesLoaded + 1 }
    else rec

/-- `getPopularCandidateForStep` on an already-loaded cache record: extend the
record, then read the candidate at the target index (lines 200-204).  Returns
the store result together with the mutated record. -/
def getPopularCandidateForStep (provider : ℕ → Option (List String)) (step : ℕ)
    (rec : CacheRecord) : StoreResult × CacheRecord :=
  let final := extendLoop provider step maxPages rec
  if step < final.candidates.length then
    (⟨some (final.candidates.getD step ""), final.candidates, step⟩, final)
  else (⟨none, final.candidates, step⟩, final)

/-! ## Colour selection engine (`server.js` lines 308-439) -/

/-- A recorded like (`/api/feedback` stores the request body's `query` and
`color` verbatim; the timestamp is irrelevant to selection). -/
structure LikeEntry where
  query : String
  color : String
deriving DecidableEq, Repr

/-- The source tag of a selection result. -/
inductive Source where
  | raw_exact
  | learned
  | weighted_raw
  | analyzed_candidate
deriving DecidableEq, Repr

/-- A `/api/generate` response. -/
structure GenResponse where
  color : String
  source : Source
deriving DecidableEq, Repr

/-- A `/api/generate` request body.  `mode` is `""` when absent (JS
`undefined` is falsy, as is the empty string); `previousColor` is `none` when
absent; `step` defaults to 0 and is a refinement counter, hence `ℕ`. -/
structure GenRequest where
  query : String
  previousColor : Option String
  mode : String
  step : ℕ
deriving DecidableEq, Repr

/-- Line 323: `isRawOnly ? findRawColorName(normalizedQuery) : null`. -/
def rawNameFor (q : String) : Option String :=
  if isSingleRawColorQuery q then findRawColorName q else none

/-- Lines 358-361: the analysis variant string handed to the candidate store
(`analysisQuery`), given the raw colour name of line 323. -/
def analysisQueryFor (rawColorName : Option String) (nq mode : String) : String :=
  match rawColorName with
  | some name => if mode = "refine" then nq ++ " 10 percent more " ++ name else nq
  | none => nq

/-- Lines 332-335: the most recent like whose query matches
case-insensitively. -/
def findLearned (likes : List LikeEntry) (nq : String) : Option LikeEntry :=
  likes.reverse.find? (fun item => jsToLower item.query == jsToLower nq)

/-- Line 375-377: the synthesized 15-element hash fallback list. -/
def fallbackCandidates (nq : String) : List String :=
  (List.range 15).map (fun i => getHashColor (nq ++ toString i))

/-- Outcome of the candidate-selection block (lines 354-388): the working
candidate list, the candidate index, and the selected analyzed colour. -/
structure AnalysisSel where
  candidates : List String
  index : ℕ
  selected : String
deriving DecidableEq, Repr

/-- Lines 374-380: synthesize the fallback list and select `step % 15`. -/
def fallbackSel (nq : String) (step : ℕ) : AnalysisSel :=
  let fb := fallbackCandidates nq
  ⟨fb, step % 15, fb.getD (step % 15) ""⟩

/-- Lines 354-388.  A store result with a candidate populates the working
state (lines 365-369); otherwise the candidate list stays empty and the hash
fallback fires (lines 374-380).  A populated but empty candidate list also
falls back, and the fallback overwrites the selected colour (line 379).
(The guard at line 386 re-selecting `candidates[candidateIndex]` is
unreachable: whenever the candidate list is non-empty a selected colour has
already been assigned.) -/
def selectStage (result : StoreResult) (nq : String) (step : ℕ) : AnalysisSel :=
  match result.candidate with
  | some c => if result.candidates = [] then fallbackSel nq step else ⟨result.candidates, result.index, c⟩
  | none => fallbackSel nq step

/-- Lines 392-395: the anchored blend, fired only when `rawColorData` is
set; returns the weight and the blended colour. -/
def blendStage (rawColorData : Option ColorEntry) (selected : String) : ℚ × String :=
  match rawColorData with
  | some d => (4 / 5, blendColors d.hex selected (4 / 5))
  | none => (0, selected)

/-- Lines 397-399 and 410-412: the degree-0 hue clamp applied whenever the
query matched a lexicon name. -/
def applyClamp (spectrumRanges : Option (List (ℚ × ℚ))) (c : String) : String :=
  match spectrumRanges with
  | some rs => shiftHue c 0 (some rs)
  | none => c

/-- Lines 403-412: advance to the next candidate index, re-blend (with
`weight || 0.8`) and re-clamp. -/
def collideStep (rawColorData : Option ColorEntry) (spectrumRanges : Option (List (ℚ × ℚ)))
    (weight : ℚ) (cands : List String) (idx : ℕ) : String :=
  let nextIndex := (idx + 1) % cands.length
  let sel := cands.getD nextIndex ""
  let f :=
    match rawColorData with
    | some d => blendColors d.hex sel (if weight = 0 then 4 / 5 else weight)
    | none => sel
  applyClamp spectrumRanges f

/-- Line 401 (and 420): `previousColor && finalColor.toUpperCase() ===
previousColor.toUpperCase()`. -/
def collides (previousColor : Option String) (finalColor : String) : Bool :=
  match previousColor with
  | some prev => prev ≠ "" && jsToUpper finalColor == jsToUpper prev
  | none => false

/-- The analysis path of the generate handler (lines 354-438), reached when
the query is neither a single raw colour token nor answered from the likes.
`storeResult` is what `getPopularCandidateForStep` returned (the `catch` at
line 370 is modelled by a store result with no candidate, which lands in the
same hash fallback). -/
def analysisPath (storeResult : StoreResult) (req : GenRequest) (nq : String)
    (rawColorData : Option ColorEntry) (spectrumRanges : Option (List (ℚ × ℚ))) : GenResponse :=
  let sel := selectStage storeResult nq req.step
  let ws := blendStage rawColorData sel.selected
  let f2 := applyClamp spectrumRanges ws.2
  let f3 :=
    if collides req.previousColor f2 then
      if 1 < sel.candidates.length then
        collideStep rawColorData spectrumRanges ws.1 sel.candidates sel.index
      else shiftHue f2 30 spectrumRanges
    else f2
  let f4 := if collides req.previousColor f3 then shiftHue f3 30 spectrumRanges else f3
  match rawColorData with
  | some _ => ⟨f4, Source.weighted_raw⟩
  | none => ⟨if f4 = "" then "#CCCCCC" else f4, Source.analyzed_candidate⟩

/-- The `/api/generate` handler as a function of the request, the likes table
and the store (`store nq analysisQuery step` stands for the awaited result of
`getPopularCandidateForStep(normalizedQuery, analysisQuery, step)`).  `none`
models the 400 response for an empty (or all-whitespace) query. -/
def generate (store : String → String → ℕ → StoreResult) (likes : List LikeEntry)
    (req : GenRequest) : Option GenResponse :=
  let nq := req.query.trim
  if nq = "" then none
  else
    let rawColorName := rawNameFor nq
    let rawColorData := rawColorName.bind colorNamesLookup
    let spectrumRanges := (findRawColorName nq).bind (fun n => (colorNamesLookup n).map (fun e => e.range))
    if isSingleRawColorQuery nq then rawColorData.map (fun d => ⟨d.hex, Source.raw_exact⟩)
    else
      let learned := findLearned likes nq
      if req.mode = "" ∧ req.step = 0 ∧ ((learned.map (fun l => l.color)).getD "") ≠ "" then
        learned.map (fun l => ⟨l.color, Source.learned⟩)
      else
        let aq := analysisQueryFor rawColorName nq req.mode
        some (analysisPath (store nq aq req.step) req nq rawColorData spectrumRanges)

/-! ## Fold-back loop lemmas -/

lemma ceil_mul_ge {a w : ℚ} (hw : 0 < w) : a ≤ (⌈a / w⌉ : ℚ) * w := by
  have h1 : a / w ≤ (⌈a / w⌉ : ℚ) := Int.le_ceil _
  have h2 : a / w * w ≤ (⌈a / w⌉ : ℚ) * w := mul_le_mul_of_nonneg_right h1 hw.le
  rwa [div_mul_cancel₀ a hw.ne'] at h2

lemma ceil_mul_lt {a w : ℚ} (hw : 0 < w) : (⌈a / w⌉ : ℚ) * w < a + w := by
  have h1 : (⌈a / w⌉ : ℚ) < a / w + 1 := Int.ceil_lt_add_one _
  have h2 : (⌈a / w⌉ : ℚ) * w < (a / w + 1) * w := mul_lt_mul_of_pos_right h1 hw
  calc (⌈a / w⌉ : ℚ) * w < (a / w + 1) * w := h2
    _ = a + w := by field_simp

lemma foldDown_of_le {mn mx h : ℚ} (hh : h ≤ mx) : foldDown mn mx h = h := by
  simp [foldDown, hh]

lemma foldDown_le {mn mx : ℚ} (hmn : mn < mx) (h : ℚ) : foldDown mn mx h ≤ mx := by
  unfold foldDown
  split_ifs with hle
  · exact hle
  · have hw : 0 < mx - mn := sub_pos.2 hmn
    have := ceil_mul_ge (a := h - mx) hw
    linarith

lemma foldDown_gt {mn mx : ℚ} (hmn : mn < mx) {h : ℚ} (hh : mx < h) : mn < foldDown mn mx h := by
  unfold foldDown
  rw [if_neg (not_le.2 hh)]
  have hw : 0 < mx - mn := sub_pos.2 hmn
  have := ceil_mul_lt (a := h - mx) hw
  linarith

lemma foldUp_of_ge {mn mx h : ℚ} (hh : mn ≤ h) : foldUp mn mx h = h := by
  simp [foldUp, hh]

lemma foldUp_ge {mn mx : ℚ} (hmn : mn < mx) (h : ℚ) : mn ≤ foldUp mn mx h := by
  unfold foldUp
  split_ifs with hge
  · exact hge
  · have hw : 0 < mx - mn := sub_pos.2 hmn
    have := ceil_mul_ge (a := mn - h) hw
    push_neg at hge
    linarith

lemma foldUp_lt {mn mx : ℚ} (hmn : mn < mx) {h : ℚ} (hh : h < mn) : foldUp mn mx h < mx := by
  unfold foldUp
  rw [if_neg (not_le.2 hh)]
  have hw : 0 < mx - mn := sub_pos.2 hmn
  have := ceil_mul_lt (a := mn - h) hw
  linarith

/-- The folded hue always lands inside the selected sub-range whenever that
sub-range is non-degenerate. -/
lemma rangedHue_mem (hue degree : ℚ) (ranges : List (ℚ × ℚ))
    (hmn : (selectRange hue ranges).1 < (selectRange hue ranges).2) :
    (selectRange hue ranges).1 ≤ rangedHue hue degree ranges ∧
      rangedHue hue degree ranges ≤ (selectRange hue ranges).2 := by
  unfold rangedHue
  by_cases hle : hue + degree ≤ (selectRange hue ranges).2
  · rw [foldDown_of_le hle]
    by_cases hge : (selectRange hue ranges).1 ≤ hue + degree
    · rw [foldUp_of_ge hge]
      exact ⟨hge, hle⟩
    · exact ⟨foldUp_ge hmn _, (foldUp_lt hmn (not_le.1 hge)).le⟩
  · have h1 := foldDown_le hmn (hue + degree)
    have h2 := foldDown_gt hmn (not_le.1 hle)
    rw [foldUp_of_ge h2.le]
    exact ⟨h2.le, h1⟩

lemma foldDownStep_iterate (mn mx h : ℚ) (n : ℕ) :
    (foldDownStep mn mx)^[n] h = h - n * (mx - mn) := by
  induction n with
  | zero => simp
  | succ k ih =>
    rw [Function.iterate_succ_apply', ih, foldDownStep]
    push_cast
    ring

lemma foldUpStep_iterate (mn mx h : ℚ) (n : ℕ) :
    (foldUpStep mn mx)^[n] h = h + n * (mx - mn) := by
  induction n with
  | zero => simp
  | succ k ih =>
    rw [Function.iterate_succ_apply', ih, foldUpStep]
    push_cast
    ring

/-- C10: with `min < max` the fold-back `while` loops of `shiftHue`
terminate: each pass of the first loop subtracts exactly `max - min` (and
each pass of the second adds it), so after finitely many iterations of the
loop body the loop condition fails, and the value at that point is the
closed-form denotation `foldDown` / `foldUp` used by `rangedHue`.  With a
degenerate pair `min = max` the first loop body is the identity, so from any
value above `max` the loop condition stays true forever. -/
theorem c10_fold_loops_terminate :
    (∀ mn mx h : ℚ, mn < mx →
      (∃ n : ℕ, (foldDownStep mn mx)^[n] h ≤ mx ∧ (foldDownStep mn mx)^[n] h = foldDown mn mx h) ∧
      (∃ n : ℕ, mn ≤ (foldUpStep mn mx)^[n] h ∧ (foldUpStep mn mx)^[n] h = foldUp mn mx h)) ∧
    (∀ mx h : ℚ, mx < h → ∀ n : ℕ, (foldDownStep mx mx)^[n] h = h) := by
  constructor
  · intro mn mx h hmn
    have hw : 0 < mx - mn := sub_pos.2 hmn
    constructor
    · by_cases hle : h ≤ mx
      · exact ⟨0, by simpa using hle, by simp [foldDown_of_le hle]⟩
      · push_neg at hle
        have hpos : (0 : ℚ) ≤ (h - mx) / (mx - mn) := div_nonneg (by linarith) hw.le
        have hge : 0 ≤ ⌈(h - mx) / (mx - mn)⌉ := Int.ceil_nonneg hpos
        have hcast : ((⌈(h - mx) / (mx - mn)⌉.toNat : ℕ) : ℚ) = (⌈(h - mx) / (mx - mn)⌉ : ℚ) := by
          exact_mod_cast Int.toNat_of_nonneg hge
        refine ⟨⌈(h - mx) / (mx - mn)⌉.toNat, ?_, ?_⟩
        · rw [foldDownStep_iterate, hcast]
          have hfd := foldDown_le hmn h
          rwa [foldDown, if_neg (not_le.2 hle)] at hfd
        · rw [foldDownStep_iterate, hcast, foldDown, if_neg (not_le.2 hle)]
    · by_cases hgeh : mn ≤ h
      · exact ⟨0, by simpa using hgeh, by simp [foldUp_of_ge hgeh]⟩
      · push_neg at hgeh
        have hpos : (0 : ℚ) ≤ (mn - h) / (mx - mn) := div_nonneg (by linarith) hw.le
        have hge : 0 ≤ ⌈(mn - h) / (mx - mn)⌉ := Int.ceil_nonneg hpos
        have hcast : ((⌈(mn - h) / (mx - mn)⌉.toNat : ℕ) : ℚ) = (⌈(mn - h) / (mx - mn)⌉ : ℚ) := by
          exact_mod_cast Int.toNat_of_nonneg hge
        refine ⟨⌈(mn - h) / (mx - mn)⌉.toNat, ?_, ?_⟩
        · rw [foldUpStep_iterate, hcast]
          have hfu := foldUp_ge hmn h
          rwa [foldUp, if_neg (not_le.2 hgeh)] at hfu
        · rw [foldUpStep_iterate, hcast, foldUp, if_neg (not_le.2 hgeh)]
  · intro mx h _ n
    have hid : foldDownStep mx mx = id := by
      funext x
      simp [foldDownStep]
    rw [hid, Function.iterate_id, id]

/-- Concrete instance of the termination theorem. -/
theorem c10_witness :
    (0 : ℚ) < 1 ∧
      ((∃ n : ℕ, (foldDownStep 0 1)^[n] 7 ≤ 1 ∧ (foldDownStep 0 1)^[n] 7 = foldDown 0 1 7) ∧
        (∃ n : ℕ, (0 : ℚ) ≤ (foldUpStep 0 1)^[n] 7 ∧ (foldUpStep 0 1)^[n] 7 = foldUp 0 1 7)) :=
  ⟨by norm_num, c10_fold_loops_terminate.1 0 1 7 (by norm_num)⟩

/-- C5: the hue value `shiftHue` computes under a ranges argument — the value
the output colour is rendered from — lies inside `[min, max]` of the selected
sub-range (first declared range containing the input hue, else the first
declared range), for every input colour, every shift degree, and every
non-empty ranges list whose selected pair is non-degenerate. -/
theorem c5_shiftHue_hue_within_selected_range :
    ∀ (r g b degree : ℚ) (ranges : List (ℚ × ℚ)), 0 < ranges.length →
      (selectRange ((rgbToHsl r g b).h * 255) ranges).1 <
        (selectRange ((rgbToHsl r g b).h * 255) ranges).2 →
      ∃ hue : ℚ,
        ((selectRange ((rgbToHsl r g b).h * 255) ranges).1 ≤ hue ∧
          hue ≤ (selectRange ((rgbToHsl r g b).h * 255) ranges).2) ∧
        shiftHueCore r g b degree (some ranges) =
          hslToRgb (hue / 255) (rgbToHsl r g b).s (rgbToHsl r g b).l := by
  intro r g b degree ranges hlen hsel
  refine ⟨rangedHue ((rgbToHsl r g b).h * 255) degree ranges, rangedHue_mem _ _ _ hsel, ?_⟩
  simp [shiftHueCore, hlen]

/-- Concrete instance: the candidate `#1E90FF` shifted by 300 inside blue's
declared range. -/
theorem c5_witness :
    0 < [((150 : ℚ), (190 : ℚ))].length ∧
      (selectRange ((rgbToHsl (30 / 255) (144 / 255) 1).h * 255) [(150, 190)]).1 <
        (selectRange ((rgbToHsl (30 / 255) (144 / 255) 1).h * 255) [(150, 190)]).2 ∧
      ∃ hue : ℚ,
        ((selectRange ((rgbToHsl (30 / 255) (144 / 255) 1).h * 255) [(150, 190)]).1 ≤ hue ∧
          hue ≤ (selectRange ((rgbToHsl (30 / 255) (144 / 255) 1).h * 255) [(150, 190)]).2) ∧
        shiftHueCore (30 / 255) (144 / 255) 1 300 (some [(150, 190)]) =
          hslToRgb (hue / 255) (rgbToHsl (30 / 255) (144 / 255) 1).s
            (rgbToHsl (30 / 255) (144 / 255) 1).l :=
  ⟨by decide, by with_unfolding_all decide,
    c5_shiftHue_hue_within_selected_range (30 / 255) (144 / 255) 1 300 [(150, 190)]
      (by decide) (by with_unfolding_all decide)⟩

/-! ## Candidate store invariants -/

/-- Well-formedness of a cache record as the store builds them: the candidate
list is duplicate-free and holds exactly the colours of the seen set (a fresh
record is empty on both sides, and the two are only ever extended together). -/
def RecordWF (rec : CacheRecord) : Prop :=
  rec.candidates.Nodup ∧ ∀ c, c ∈ rec.candidates ↔ c ∈ rec.seen

lemma addCandidates_spec (page : List String) :
    ∀ rec : CacheRecord, RecordWF rec →
      RecordWF (addCandidates rec page) ∧
      ∃ t u, (addCandidates rec page).candidates = rec.candidates ++ t ∧
        (addCandidates rec page).seen = rec.seen ++ u ∧ ∀ c ∈ t, c ∉ rec.seen := by
  induction page with
  | nil =>
    intro rec hwf
    exact ⟨hwf, [], [], by simp [addCandidates], by simp [addCandidates], by simp⟩
  | cons c rest ih =>
    intro rec hwf
    by_cases hc : c ∈ rec.seen
    · have hstep : addCandidates rec (c :: rest) = addCandidates rec rest := by
        simp [addCandidates, hc]
      rw [hstep]
      exact ih rec hwf
    · have hcnotseen : c ∉ rec.seen := hc
      have hcnotcand : c ∉ rec.candidates := fun hmem => hcnotseen ((hwf.2 c).1 hmem)
      have hstep : addCandidates rec (c :: rest) =
          addCandidates
            { rec with seen := rec.seen ++ [c], candidates := rec.candidates ++ [c] } rest := by
        simp [addCandidates, hc]
      have hwf' : RecordWF
          { rec with seen := rec.seen ++ [c], candidates := rec.candidates ++ [c] } := by
        constructor
        · simpa [List.nodup_append] using ⟨hwf.1, hcnotcand⟩
        · intro x
          simp only [List.mem_append, List.mem_singleton]
          constructor
          · rintro (hx | hx)
            · exact Or.inl ((hwf.2 x).1 hx)
            · exact Or.inr hx
          · rintro (hx | hx)
            · exact Or.inl ((hwf.2 x).2 hx)
            · exact Or.inr hx
      obtain ⟨hwf2, t, u, hcand, hseen, hnot⟩ := ih _ hwf'
      rw [hstep]
      refine ⟨hwf2, c :: t, c :: u, ?_, ?_, ?_⟩
      · simpa using hcand
      · simpa using hseen
      · intro x hx
        rcases List.mem_cons.1 hx with rfl | hx
        · exact hcnotseen
        · intro hxseen
          exact hnot x hx (by simp [hxseen])

lemma extendLoop_spec (provider : ℕ → Option (List String)) (targetIndex : ℕ) :
    ∀ (fuel : ℕ) (rec : CacheRecord), RecordWF rec →
      RecordWF (extendLoop provider targetIndex fuel rec) ∧
      ∃ t, (extendLoop provider targetIndex fuel rec).candidates = rec.candidates ++ t ∧
        ∀ c ∈ t, c ∉ rec.seen := by
  intro fuel
  induction fuel with
  | zero =>
    intro rec hwf
    exact ⟨hwf, [], by simp [extendLoop], by simp⟩
  | succ fuel ih =>
    intro rec hwf
    rw [extendLoop]
    split_ifs with hguard
    · cases hprov : provider rec.pagesLoaded with
      | none => exact ⟨hwf, [], by simp, by simp⟩
      | some page =>
        dsimp only
        by_cases hpage : page = []
        · simp only [hpage]
          exact ⟨hwf, [], by simp, by simp⟩
        · rw [if_pos hpage]
          have hwf1 : RecordWF { rec with pagesLoaded := rec.pagesLoaded + 1 } := hwf
          obtain ⟨hwfadd, t1, u1, hcand1, hseen1, hnot1⟩ := addCandidates_spec page _ hwf1
          obtain ⟨hwfext, t2, hcand2, hnot2⟩ := ih _ hwfadd
          refine ⟨hwfext, t1 ++ t2, ?_, ?_⟩
          · rw [hcand2, hcand1]
            simp
          · intro c hc
            rcases List.mem_append.1 hc with hc1 | hc2
            · exact hnot1 c hc1
            · intro hcseen
              exact hnot2 c hc2 (by rw [hseen1]; exact List.mem_append.2 (Or.inl hcseen))
    · exact ⟨hwf, [], by simp, by simp⟩

/-- C6: every mutation of a cache record only appends colours that are not
already in the record's seen set: across any number of fetch-and-extend
passes the previously discovered candidate list stays an unchanged prefix,
and the candidate list never holds the same colour twice. -/
theorem c6_candidate_store_append_only_dedup :
    ∀ (provider : ℕ → Option (List String)) (targetIndex fuel : ℕ) (rec : CacheRecord),
      RecordWF rec →
      (∃ t, (extendLoop provider targetIndex fuel rec).candidates = rec.candidates ++ t ∧
        ∀ c ∈ t, c ∉ rec.seen) ∧
      (extendLoop provider targetIndex fuel rec).candidates.Nodup ∧
      RecordWF (extendLoop provider targetIndex fuel rec) := by
  intro provider targetIndex fuel rec hwf
  obtain ⟨hwfext, t, hcand, hnot⟩ := extendLoop_spec provider targetIndex fuel rec hwf
  exact ⟨⟨t, hcand, hnot⟩, hwfext.1, hwfext⟩

/-- Concrete instance: a fresh record extended with a provider that repeats a
colour across pages keeps the list duplicate-free and append-only. -/
theorem c6_witness :
    RecordWF ⟨[], [], 0⟩ ∧
      ((∃ t, (extendLoop (fun _ => some ["#AABBCC", "#AABBCC", "#DDEEFF"]) 5 maxPages
          ⟨[], [], 0⟩).candidates = ([] : List String) ++ t ∧ ∀ c ∈ t, c ∉ ([] : List String)) ∧
        (extendLoop (fun _ => some ["#AABBCC", "#AABBCC", "#DDEEFF"]) 5 maxPages
          ⟨[], [], 0⟩).candidates.Nodup ∧
        RecordWF (extendLoop (fun _ => some ["#AABBCC", "#AABBCC", "#DDEEFF"]) 5 maxPages
          ⟨[], [], 0⟩)) :=
  ⟨⟨by simp, by simp⟩,
    c6_candidate_store_append_only_dedup (fun _ => some ["#AABBCC", "#AABBCC", "#DDEEFF"])
      5 maxPages ⟨[], [], 0⟩ ⟨by simp, by simp⟩⟩

/-! ## Shape facts about rendered colours -/

lemma toHexByte_length (n : ℕ) : (toHexByte n).length = 2 := rfl

lemma shiftHue_length (hex : String) (deg : ℚ) (rs : Option (List (ℚ × ℚ))) :
    (shiftHue hex deg rs).length = 7 := by
  have hp : ("#" : String).length = 1 := rfl
  simp [shiftHue, String.length_append, toHexByte_length, hp]

lemma shiftHue_ne_empty (hex : String) (deg : ℚ) (rs : Option (List (ℚ × ℚ))) :
    shiftHue hex deg rs ≠ "" := by
  intro h
  have := shiftHue_length hex deg rs
  rw [h] at this
  simp at this

lemma getHashColor_length (s : String) : (getHashColor s).length = 7 := by
  have hp : ("#" : String).length = 1 := rfl
  simp [getHashColor, String.length_append, toHexByte_length, hp]

lemma getHashColor_ne_empty (s : String) : getHashColor s ≠ "" := by
  intro h
  have := getHashColor_length s
  rw [h] at this
  simp at this

set_option maxRecDepth 100000

/-! ## Claims about the query classifier and the analysis variant -/

/-- C2 fails on the code: in refine mode, a query that contains the lexicon
name "blue" but is not the single token "blue" is passed to the candidate
store unchanged — the nudge branch tests `rawColorName`, which is only
assigned for single-exact-token queries. -/
theorem c2_counterexample :
    analysisQueryFor (rawNameFor "ocean blue") "ocean blue" "refine" = "ocean blue" ∧
      ("ocean blue" : String) ≠ "ocean blue 10 percent more blue" :=
  ⟨by with_unfolding_all decide, by with_unfolding_all decide⟩

/-- C2 amended: for every request that reaches the analysis stage (i.e. whose
query is not a single exact colour token — single-token colour queries return
on the exact-match path before any analysis), the analysis-variant string is
the query unchanged, in refine mode as in every other mode; the textual nudge
is never applied because `rawColorName` is gated on the single-exact-token
test. -/
theorem c2_analysis_variant_always_unchanged :
    ∀ (q mode : String), isSingleRawColorQuery q = false →
      analysisQueryFor (rawNameFor q) q mode = q := by
  intro q mode h
  simp [rawNameFor, h, analysisQueryFor]

/-- Concrete instance of the amended C2 statement. -/
theorem c2_witness :
    isSingleRawColorQuery "ocean blue" = false ∧
      analysisQueryFor (rawNameFor "ocean blue") "ocean blue" "refine" = "ocean blue" :=
  ⟨by with_unfolding_all decide, c2_analysis_variant_always_unchanged "ocean blue" "refine" (by with_unfolding_all decide)⟩

/-- C8: a query tokenizing to a single lexicon token is answered terminally
with that token's exact lexicon hex and the exact-match source tag, whatever
the store, the likes, the mode, the step and the previous colour are. -/
theorem c8_single_token_exact_match :
    ∀ (store : String → String → ℕ → StoreResult) (likes : List LikeEntry) (req : GenRequest)
      (t : String) (entry : ColorEntry),
      tokenizeQuery req.query.trim = [t] → colorNamesLookup t = some entry →
      generate store likes req = some ⟨entry.hex, Source.raw_exact⟩ := by
  intro store likes req t entry htok hlook
  have hsingle : isSingleRawColorQuery req.query.trim = true := by
    simp [isSingleRawColorQuery, htok, hlook]
  have hne : req.query.trim ≠ "" := by
    intro h
    rw [h] at htok
    have hemp : tokenizeQuery "" = [] := by with_unfolding_all decide
    rw [hemp] at htok
    simp at htok
  have hfind : findRawColorName req.query.trim = some t := by
    simp [findRawColorName, htok, hlook]
  simp [generate, hne, hsingle, rawNameFor, hfind, hlook]

/-- Concrete instance: the query "red" returns `#FF0000` with the exact-match
tag even with a conflicting recorded like, a previous colour equal to the
answer, and a populated store. -/
theorem c8_witness :
    tokenizeQuery (String.trim "red") = ["red"] ∧
      colorNamesLookup "red" = some ⟨"#FF0000", [(0, 20), (235, 255)]⟩ ∧
      generate (fun _ _ _ => StoreResult.mk (some "#123456") ["#123456"] 0)
          [⟨"red", "#00FF00"⟩] ⟨"red", some "#FF0000", "", 0⟩ =
        some ⟨"#FF0000", Source.raw_exact⟩ :=
  ⟨by with_unfolding_all decide, by with_unfolding_all decide,
    c8_single_token_exact_match (fun _ _ _ => StoreResult.mk (some "#123456") ["#123456"] 0)
      [⟨"red", "#00FF00"⟩] ⟨"red", some "#FF0000", "", 0⟩ "red"
      ⟨"#FF0000", [(0, 20), (235, 255)]⟩ (by with_unfolding_all decide) (by with_unfolding_all decide)⟩

/-! ## Hash fallback claim -/

lemma fallbackCandidates_getD (nq : String) (step : ℕ) :
    (fallbackCandidates nq).getD (step % 15) "" = getHashColor (nq ++ toString (step % 15)) := by
  have hlt : step % 15 < 15 := Nat.mod_lt _ (by norm_num)
  simp [fallbackCandidates, List.getD, hlt]

/-- C7: when the store yields no candidate (provider failure or exhaustion),
the engine synthesizes the 15-element hash fallback list and selects index
`step % 15`, so the selected colour is `getHashColor(query + (step % 15))`;
with no colour name in the query and no previous colour this is exactly the
returned colour, and it is a pure function of the query and the step. -/
theorem c7_hash_fallback_selection :
    ∀ (store : String → String → ℕ → StoreResult) (likes : List LikeEntry) (req : GenRequest),
      req.query.trim ≠ "" →
      isSingleRawColorQuery req.query.trim = false →
      findRawColorName req.query.trim = none →
      ¬(req.mode = "" ∧ req.step = 0 ∧
        ((findLearned likes req.query.trim).map (fun l => l.color)).getD "" ≠ "") →
      (store req.query.trim req.query.trim req.step).candidate = none →
      req.previousColor = none →
      generate store likes req =
        some ⟨getHashColor (req.query.trim ++ toString (req.step % 15)),
          Source.analyzed_candidate⟩ := by
  intro store likes req hne hraw hfind hlearn hstore hprev
  have hrawname : rawNameFor req.query.trim = none := by
    simp [rawNameFor, hraw]
  have hfb := fallbackCandidates_getD req.query.trim req.step
  have hfbne := getHashColor_ne_empty (req.query.trim ++ toString (req.step % 15))
  have hk : req.step % 15 < 15 := Nat.mod_lt _ (by norm_num)
  simp [generate, hne, hraw, hrawname, hfind, hlearn, analysisQueryFor, analysisPath,
    selectStage, hstore, fallbackSel, blendStage, applyClamp, hprev, collides,
    fallbackCandidates, List.getElem?_range hk, hfbne]

/-- Concrete instance: all providers failing for "xyzzy" at step 3. -/
theorem c7_witness :
    ("xyzzy" : String).trim ≠ "" ∧
      isSingleRawColorQuery "xyzzy" = false ∧
      findRawColorName "xyzzy" = none ∧
      generate (fun _ _ _ => StoreResult.mk none [] 0) [] ⟨"xyzzy", none, "", 3⟩ =
        some ⟨getHashColor (("xyzzy" : String).trim ++ toString (3 % 15)),
          Source.analyzed_candidate⟩ :=
  ⟨by with_unfolding_all decide, by with_unfolding_all decide, by with_unfolding_all decide,
    c7_hash_fallback_selection (fun _ _ _ => StoreResult.mk none [] 0) [] ⟨"xyzzy", none, "", 3⟩
      (by with_unfolding_all decide) (by with_unfolding_all decide)
      (by with_unfolding_all decide) (by with_unfolding_all decide)
      (by with_unfolding_all decide) rfl⟩

/-! ## Anchored-blend claim -/

/-- C1 fails on the code: for the specified scenario (query "ocean blue", no
previous colour, step 0, candidates `#1E90FF` and `#4682B4`) the engine does
not blend with blue's lexicon hex at weight 0.8 — the anchor variable is only
assigned for single-exact-token queries, which return earlier — and instead
returns the selected candidate clamped into blue's hue range, tagged
analyzed-candidate rather than weighted-raw. -/
theorem c1_counterexample :
    generate (fun _ _ _ => StoreResult.mk (some "#1E90FF") ["#1E90FF", "#4682B4"] 0) []
        ⟨"ocean blue", none, "", 0⟩ = some ⟨"#801EFF", Source.analyzed_candidate⟩ ∧
      Source.analyzed_candidate ≠ Source.weighted_raw ∧
      shiftHue (blendColors "#0000FF" "#1E90FF" (4 / 5)) 0 (some [(150, 190)]) = "#061DFF" ∧
      ("#801EFF" : String) ≠ "#061DFF" :=
  ⟨by with_unfolding_all decide, by decide, by with_unfolding_all decide, by decide⟩

/-- C1 amended: a query containing a lexicon colour name that is not a single
exact colour token gets no anchor and no blend (the anchor is only assigned
for single-token queries, which return on the exact-match path); with no
previous colour the engine returns the selected analyzed candidate clamped
into the matched name's hue range, with source tag analyzed-candidate. -/
theorem c1_multiword_color_query_not_blended :
    ∀ (store : String → String → ℕ → StoreResult) (likes : List LikeEntry) (req : GenRequest)
      (name : String) (entry : ColorEntry) (c : String) (cs : List String) (i : ℕ),
      isSingleRawColorQuery req.query.trim = false →
      findRawColorName req.query.trim = some name →
      colorNamesLookup name = some entry →
      ¬(req.mode = "" ∧ req.step = 0 ∧
        ((findLearned likes req.query.trim).map (fun l => l.color)).getD "" ≠ "") →
      store req.query.trim req.query.trim req.step = ⟨some c, cs, i⟩ →
      cs ≠ [] →
      req.previousColor = none →
      generate store likes req =
        some ⟨shiftHue c 0 (some entry.range), Source.analyzed_candidate⟩ := by
  intro store likes req name entry c cs i hraw hfind hlook hlearn hstore hcs hprev
  have hne : req.query.trim ≠ "" := by
    intro h
    rw [h] at hfind
    have hemp : findRawColorName "" = none := by with_unfolding_all decide
    rw [hemp] at hfind
    exact Option.noConfusion hfind
  have hrawname : rawNameFor req.query.trim = none := by
    simp [rawNameFor, hraw]
  have hclampne := shiftHue_ne_empty c 0 (some entry.range)
  simp [generate, hne, hraw, hrawname, hfind, hlook, hlearn, analysisQueryFor, analysisPath,
    selectStage, hstore, hcs, blendStage, applyClamp, hprev, collides, hclampne]

/-- Concrete instance: the "ocean blue" scenario resolved by the amended
statement. -/
theorem c1_witness :
    isSingleRawColorQuery "ocean blue" = false ∧
      findRawColorName "ocean blue" = some "blue" ∧
      colorNamesLookup "blue" = some ⟨"#0000FF", [(150, 190)]⟩ ∧
      generate (fun _ _ _ => StoreResult.mk (some "#1E90FF") ["#1E90FF", "#4682B4"] 0) []
          ⟨"ocean blue", none, "", 0⟩ =
        some ⟨shiftHue "#1E90FF" 0 (some [(150, 190)]), Source.analyzed_candidate⟩ :=
  ⟨by with_unfolding_all decide, by with_unfolding_all decide, by with_unfolding_all decide,
    c1_multiword_color_query_not_blended
      (fun _ _ _ => StoreResult.mk (some "#1E90FF") ["#1E90FF", "#4682B4"] 0) []
      ⟨"ocean blue", none, "", 0⟩ "blue" ⟨"#0000FF", [(150, 190)]⟩ "#1E90FF"
      ["#1E90FF", "#4682B4"] 0 (by with_unfolding_all decide) (by with_unfolding_all decide)
      (by with_unfolding_all decide) (by with_unfolding_all decide)
      (by with_unfolding_all decide) (by with_unfolding_all decide) rfl⟩

/-! ## Collision-avoidance claim -/

lemma applyClamp_ne_empty (sr : Option (List (ℚ × ℚ))) {x : String} (hx : x ≠ "") :
    applyClamp sr x ≠ "" := by
  cases sr with
  | none => simpa [applyClamp] using hx
  | some rs => simpa [applyClamp] using shiftHue_ne_empty x 0 (some rs)

/-- C4 fails on the code: in this scenario the candidate list has two
entries, both of which clamp into maroon's hue ranges onto the previous
colour, and the forced +30 fold inside maroon's 15-wide wrap range lands back
on the same hue — so the engine advances, re-clamps, applies the forced
shift, and still returns exactly the previous colour. -/
theorem c4_counterexample :
    generate (fun _ _ _ => StoreResult.mk (some "#FF0078") ["#FF0078", "#FF001E"] 0) []
        ⟨"maroon sunset", some "#FF001E", "", 0⟩ =
      some ⟨"#FF001E", Source.analyzed_candidate⟩ ∧
      (["#FF0078", "#FF001E"] : List String).length > 1 ∧
      shiftHue "#FF0078" 0 (some [(240, 255), (0, 10)]) = "#FF001E" ∧
      shiftHue "#FF001E" 30 (some [(240, 255), (0, 10)]) = "#FF001E" :=
  ⟨by with_unfolding_all decide, by decide, by with_unfolding_all decide,
    by with_unfolding_all decide⟩

/-- C4 amended: when the previous colour is supplied, the first computed
colour collides with it case-insensitively and the candidate list has more
than one entry, the engine advances to index `(index+1) mod length` and
recomputes the clamp with that candidate (no blend occurs on this path); the
returned colour is that recomputed colour — and therefore differs from the
previous colour — provided the recomputed colour itself differs
case-insensitively (otherwise the engine falls back to one unchecked +30
shift, which can reproduce the previous colour). -/
theorem c4_collision_advances_candidate_index :
    ∀ (store : String → String → ℕ → StoreResult) (likes : List LikeEntry) (req : GenRequest)
      (c prev : String) (cs : List String) (i : ℕ) (sr : Option (List (ℚ × ℚ))),
      req.query.trim ≠ "" →
      isSingleRawColorQuery req.query.trim = false →
      (findRawColorName req.query.trim).bind
        (fun n => (colorNamesLookup n).map (fun e => e.range)) = sr →
      ¬(req.mode = "" ∧ req.step = 0 ∧
        ((findLearned likes req.query.trim).map (fun l => l.color)).getD "" ≠ "") →
      store req.query.trim req.query.trim req.step = ⟨some c, cs, i⟩ →
      req.previousColor = some prev →
      prev ≠ "" →
      jsToUpper (applyClamp sr c) = jsToUpper prev →
      1 < cs.length →
      cs.getD ((i + 1) % cs.length) "" ≠ "" →
      jsToUpper (applyClamp sr (cs.getD ((i + 1) % cs.length) "")) ≠ jsToUpper prev →
      generate store likes req =
        some ⟨applyClamp sr (cs.getD ((i + 1) % cs.length) ""), Source.analyzed_candidate⟩ ∧
      jsToUpper (applyClamp sr (cs.getD ((i + 1) % cs.length) "")) ≠ jsToUpper prev := by
  intro store likes req c prev cs i sr hne hraw hsr hlearn hstore hprev hprevne hcol hlen
    hnextne hnextdiff
  have hrawname : rawNameFor req.query.trim = none := by
    simp [rawNameFor, hraw]
  have hcs : cs ≠ [] := by
    intro h
    rw [h] at hlen
    simp at hlen
  have hclampne := applyClamp_ne_empty sr hnextne
  refine ⟨?_, hnextdiff⟩
  simp only [List.getD_eq_getElem?_getD] at hnextne hnextdiff hclampne
  simp [generate, hne, hraw, hrawname, hsr, hlearn, analysisQueryFor, analysisPath,
    selectStage, hstore, hcs, blendStage, hprev, collides, hprevne, hcol, hlen,
    collideStep, hnextdiff, hclampne]

/-- Concrete instance of the amended collision behaviour: the second
candidate differs, is chosen, and the result differs from the previous
colour. -/
theorem c4_witness :
    ("alpha beta" : String).trim ≠ "" ∧
      jsToUpper (applyClamp none "#AAAAAA") = jsToUpper "#AAAAAA" ∧
      generate (fun _ _ _ => StoreResult.mk (some "#AAAAAA") ["#AAAAAA", "#BBBBBB"] 0) []
          ⟨"alpha beta", some "#AAAAAA", "", 1⟩ =
        some ⟨applyClamp none ((["#AAAAAA", "#BBBBBB"] : List String).getD ((0 + 1) % 2) ""),
          Source.analyzed_candidate⟩ ∧
      jsToUpper (applyClamp none ((["#AAAAAA", "#BBBBBB"] : List String).getD ((0 + 1) % 2) "")) ≠
        jsToUpper "#AAAAAA" :=
  ⟨by with_unfolding_all decide, by with_unfolding_all decide,
    (c4_collision_advances_candidate_index
      (fun _ _ _ => StoreResult.mk (some "#AAAAAA") ["#AAAAAA", "#BBBBBB"] 0) []
      ⟨"alpha beta", some "#AAAAAA", "", 1⟩ "#AAAAAA" "#AAAAAA" ["#AAAAAA", "#BBBBBB"] 0 none
      (by with_unfolding_all decide) (by with_unfolding_all decide)
      (by with_unfolding_all decide) (by with_unfolding_all decide)
      (by with_unfolding_all decide) rfl (by with_unfolding_all decide)
      (by with_unfolding_all decide) (by with_unfolding_all decide)
      (by with_unfolding_all decide) (by with_unfolding_all decide)).1,
    (c4_collision_advances_candidate_index
      (fun _ _ _ => StoreResult.mk (some "#AAAAAA") ["#AAAAAA", "#BBBBBB"] 0) []
      ⟨"alpha beta", some "#AAAAAA", "", 1⟩ "#AAAAAA" "#AAAAAA" ["#AAAAAA", "#BBBBBB"] 0 none
      (by with_unfolding_all decide) (by with_unfolding_all decide)
      (by with_unfolding_all decide) (by with_unfolding_all decide)
      (by with_unfolding_all decide) rfl (by with_unfolding_all decide)
      (by with_unfolding_all decide) (by with_unfolding_all decide)
      (by with_unfolding_all decide) (by with_unfolding_all decide)).2⟩

/-! ## Validity of rendered colours

The renderers below always produce `'#'` plus six uppercase hex digits: the
source's `('00' + v.toString(16)).substr(-2)` keeps the last two hex digits,
i.e. `v mod 256`, for every non-negative `v`, which is what `toHexByte`
computes.  (For a negative channel value JS would instead produce a malformed
string; the bounds lemmas further below show every channel value reachable
through the selection engine lies in `[0,1]` before rounding, so that
divergence is unreachable there.) -/

lemma isHexDigitUpper_hexDigitCharUpper {m : ℕ} (hm : m < 16) :
    isHexDigitUpper (hexDigitCharUpper m) = true := by
  interval_cases m <;> decide

lemma isValidColorHex_triple (a b c : ℕ) :
    isValidColorHex ("#" ++ toHexByte a ++ toHexByte b ++ toHexByte c) = true := by
  have h1 := isHexDigitUpper_hexDigitCharUpper (Nat.mod_lt (a / 16) (by norm_num : 0 < 16))
  have h2 := isHexDigitUpper_hexDigitCharUpper (Nat.mod_lt a (by norm_num : 0 < 16))
  have h3 := isHexDigitUpper_hexDigitCharUpper (Nat.mod_lt (b / 16) (by norm_num : 0 < 16))
  have h4 := isHexDigitUpper_hexDigitCharUpper (Nat.mod_lt b (by norm_num : 0 < 16))
  have h5 := isHexDigitUpper_hexDigitCharUpper (Nat.mod_lt (c / 16) (by norm_num : 0 < 16))
  have h6 := isHexDigitUpper_hexDigitCharUpper (Nat.mod_lt c (by norm_num : 0 < 16))
  simp [isValidColorHex, toHexByte, String.data_append, h1, h2, h3, h4, h5, h6]

lemma isValidColorHex_shiftHue (hex : String) (deg : ℚ) (rs : Option (List (ℚ × ℚ))) :
    isValidColorHex (shiftHue hex deg rs) = true := by
  unfold shiftHue
  exact isValidColorHex_triple _ _ _

lemma isValidColorHex_blendColors (c1 c2 : String) (w : ℚ) :
    isValidColorHex (blendColors c1 c2 w) = true := by
  unfold blendColors
  exact isValidColorHex_triple _ _ _

lemma isValidColorHex_getHashColor (s : String) :
    isValidColorHex (getHashColor s) = true := by
  unfold getHashColor
  exact isValidColorHex_triple _ _ _

lemma isValidColorHex_applyClamp (sr : Option (List (ℚ × ℚ))) {x : String}
    (hx : isValidColorHex x = true) : isValidColorHex (applyClamp sr x) = true := by
  cases sr with
  | none => exact hx
  | some rs => exact isValidColorHex_shiftHue x 0 (some rs)

lemma List.getD_mem_of_lt {l : List String} {n : ℕ} {d : String} (h : n < l.length) :
    l.getD n d ∈ l := by
  rw [List.getD_eq_getElem?_getD, List.getElem?_eq_getElem h]
  exact List.getElem_mem h

lemma fallbackSel_valid (nq : String) (step : ℕ) :
    (∀ c ∈ (fallbackSel nq step).candidates, isValidColorHex c = true) ∧
      isValidColorHex (fallbackSel nq step).selected = true := by
  constructor
  · intro c hc
    simp only [fallbackSel, fallbackCandidates, List.mem_map] at hc
    obtain ⟨i, _, rfl⟩ := hc
    exact isValidColorHex_getHashColor _
  · show isValidColorHex ((fallbackCandidates nq).getD (step % 15) "") = true
    rw [fallbackCandidates_getD]
    exact isValidColorHex_getHashColor _

lemma selectStage_valid (result : StoreResult) (nq : String) (step : ℕ)
    (hcand : ∀ c, result.candidate = some c → isValidColorHex c = true)
    (hcands : ∀ c ∈ result.candidates, isValidColorHex c = true) :
    (∀ c ∈ (selectStage result nq step).candidates, isValidColorHex c = true) ∧
      isValidColorHex (selectStage result nq step).selected = true := by
  unfold selectStage
  cases hres : result.candidate with
  | none => exact fallbackSel_valid nq step
  | some c =>
    by_cases hemp : result.candidates = []
    · simpa [hemp] using fallbackSel_valid nq step
    · simpa [hemp] using ⟨hcands, hcand c hres⟩

lemma collideStep_valid (rcd : Option ColorEntry) (sr : Option (List (ℚ × ℚ))) (w : ℚ)
    (cs : List String) (i : ℕ) (hcs : ∀ c ∈ cs, isValidColorHex c = true)
    (hlen : 0 < cs.length) : isValidColorHex (collideStep rcd sr w cs i) = true := by
  unfold collideStep
  cases rcd with
  | some d => exact isValidColorHex_applyClamp sr (isValidColorHex_blendColors _ _ _)
  | none =>
    exact isValidColorHex_applyClamp sr
      (hcs _ (List.getD_mem_of_lt (Nat.mod_lt _ hlen)))

lemma blendStage_valid (rcd : Option ColorEntry) {sel : String}
    (hsel : isValidColorHex sel = true) :
    isValidColorHex (blendStage rcd sel).2 = true := by
  cases rcd with
  | some d => exact isValidColorHex_blendColors _ _ _
  | none => exact hsel

lemma valid_ite (c : Prop) [Decidable c] {a b : String}
    (ha : c → isValidColorHex a = true) (hb : isValidColorHex b = true) :
    isValidColorHex (if c then a else b) = true := by
  split_ifs with h
  · exact ha h
  · exact hb

lemma analysisPath_valid (result : StoreResult) (req : GenRequest) (nq : String)
    (rcd : Option ColorEntry) (sr : Option (List (ℚ × ℚ)))
    (hcand : ∀ c, result.candidate = some c → isValidColorHex c = true)
    (hcands : ∀ c ∈ result.candidates, isValidColorHex c = true) :
    isValidColorHex (analysisPath result req nq rcd sr).color = true := by
  obtain ⟨hselcands, hsel⟩ := selectStage_valid result nq req.step hcand hcands
  have hf2 : isValidColorHex
      (applyClamp sr (blendStage rcd (selectStage result nq req.step).selected).2) = true :=
    isValidColorHex_applyClamp sr (blendStage_valid rcd hsel)
  have hf3 : isValidColorHex
      (if collides req.previousColor
            (applyClamp sr (blendStage rcd (selectStage result nq req.step).selected).2) = true
        then
          if 1 < (selectStage result nq req.step).candidates.length then
            collideStep rcd sr (blendStage rcd (selectStage result nq req.step).selected).1
              (selectStage result nq req.step).candidates (selectStage result nq req.step).index
          else
            shiftHue (applyClamp sr (blendStage rcd (selectStage result nq req.step).selected).2)
              30 sr
        else applyClamp sr (blendStage rcd (selectStage result nq req.step).selected).2) =
      true := by
    refine valid_ite _ (fun _ => valid_ite _ (fun h2 => ?_) (isValidColorHex_shiftHue _ _ _)) hf2
    exact collideStep_valid _ _ _ _ _ hselcands (by omega)
  unfold analysisPath
  cases rcd with
  | some d =>
    dsimp only
    exact valid_ite _ (fun _ => isValidColorHex_shiftHue _ _ _) hf3
  | none =>
    dsimp only
    refine valid_ite _ (fun _ => by decide) ?_
    exact valid_ite _ (fun _ => isValidColorHex_shiftHue _ _ _) hf3

/-! ## Error-handling claim -/

lemma colorNamesLookup_hex_valid {name : String} {entry : ColorEntry}
    (h : colorNamesLookup name = some entry) : isValidColorHex entry.hex = true := by
  unfold colorNamesLookup at h
  cases hf : colorNames.find? (fun e => e.1 == name) with
  | none => rw [hf] at h; simp at h
  | some p =>
    rw [hf] at h
    have h2 : p.2 = entry := by
      simpa using h
    have hmem := List.mem_of_find?_eq_some hf
    have hall : ∀ p ∈ colorNames, isValidColorHex p.2.hex = true := by decide
    rw [← h2]
    exact hall p hmem

lemma isSingleRawColorQuery_spec {q : String} (h : isSingleRawColorQuery q = true) :
    ∃ t entry, tokenizeQuery q = [t] ∧ colorNamesLookup t = some entry ∧
      findRawColorName q = some t := by
  unfold isSingleRawColorQuery at h
  cases htok : tokenizeQuery q with
  | nil => rw [htok] at h; simp at h
  | cons t rest =>
    cases rest with
    | nil =>
      rw [htok] at h
      simp only [Option.isSome_iff_exists] at h
      obtain ⟨entry, hentry⟩ := h
      refine ⟨t, entry, rfl, hentry, ?_⟩
      simp [findRawColorName, htok, hentry]
    | cons t2 rest2 => rw [htok] at h; simp at h

/-- On a token that does not name an `Object.prototype` member the full
property access is truthy exactly when the own-key lookup succeeds. -/
lemma colorNamesTruthy_of_not_proto {t : String}
    (h : objectPrototypeProps.contains t = false) :
    colorNamesTruthy t = (colorNamesLookup t).isSome := by
  unfold colorNamesTruthy
  rw [h, Bool.or_false]

/-- When no token of the query names an `Object.prototype` member, the
classifier with the full property access agrees with the own-key one. -/
lemma isSingleRawColorQueryJS_eq {q : String}
    (h : ∀ t ∈ tokenizeQuery q, objectPrototypeProps.contains t = false) :
    isSingleRawColorQueryJS q = isSingleRawColorQuery q := by
  unfold isSingleRawColorQueryJS isSingleRawColorQuery
  cases htok : tokenizeQuery q with
  | nil => rfl
  | cons t rest =>
    cases rest with
    | nil =>
      have ht : objectPrototypeProps.contains t = false := by
        refine h t ?_
        rw [htok]
        exact List.mem_singleton_self t
      dsimp only
      exact colorNamesTruthy_of_not_proto ht
    | cons t2 rest2 => rfl

/-- When no token of the query names an `Object.prototype` member, the raw
colour-name scan with the full property access agrees with the own-key
one. -/
lemma findRawColorNameJS_eq {q : String}
    (h : ∀ t ∈ tokenizeQuery q, objectPrototypeProps.contains t = false) :
    findRawColorNameJS q = findRawColorName q := by
  unfold findRawColorNameJS findRawColorName
  have hgen : ∀ l : List String, (∀ t ∈ l, objectPrototypeProps.contains t = false) →
      l.find? colorNamesTruthy = l.find? (fun t => (colorNamesLookup t).isSome) := by
    intro l
    induction l with
    | nil => intro _; rfl
    | cons a as ih =>
      intro hl
      have ha := hl a (List.mem_cons_self a as)
      have has : ∀ t ∈ as, objectPrototypeProps.contains t = false :=
        fun t ht => hl t (List.mem_cons_of_mem a ht)
      rw [List.find?_cons, List.find?_cons, colorNamesTruthy_of_not_proto ha]
      cases hb : (colorNamesLookup a).isSome with
      | true => rfl
      | false => exact ih has
  exact hgen _ h

/-- The divergent corner of the property access: the all-lowercase token
`constructor` survives tokenisation and the inherited
`Object.prototype.constructor` member makes the access truthy, so the real
handler classifies the single-token query `constructor` as raw-exact and
returns `rawColorData.hex` — which is the JS `undefined`, not a colour,
because the lexicon has no such own key. -/
lemma constructor_query_reaches_prototype :
    isSingleRawColorQueryJS "constructor" = true ∧
      isSingleRawColorQuery "constructor" = false ∧
      colorNamesLookup "constructor" = none := by
  with_unfolding_all decide

/-- C3 fails on the code: the feedback endpoint records the request body's
colour verbatim, and the learned path returns it verbatim, so a recorded like
whose colour is not a colour hex is returned as-is. -/
theorem c3_counterexample :
    generate (fun _ _ _ => StoreResult.mk none [] 0) [⟨"sky", "banana"⟩]
        ⟨"sky", none, "", 0⟩ = some ⟨"banana", Source.learned⟩ ∧
      isValidColorHex "banana" = false :=
  ⟨by with_unfolding_all decide, by decide⟩

/-- C3 amended: for every non-empty query none of whose tokens names an
`Object.prototype` member, the engine completes with some response on every
path; the colour is a valid canonical ColorHex provided the recorded likes
and the store's candidates are valid ColorHex values — the learned path
returns the stored liked colour verbatim, so its output is only as valid as
what was stored; every other path (exact match, analyzed candidate, hash
fallback, blend, clamp, forced shift) produces a valid ColorHex.  Under the
token hypothesis the classifier and the raw colour-name scan built on the
own-key lookup agree with the full JS property access, so the statement
transfers to the source; outside it the guarantee fails — the single-token
query `constructor` reaches the inherited prototype member and the raw-exact
path returns an undefined colour (`constructor_query_reaches_prototype`). -/
theorem c3_selection_always_completes_validly :
    ∀ (store : String → String → ℕ → StoreResult) (likes : List LikeEntry) (req : GenRequest),
      req.query.trim ≠ "" →
      (∀ t ∈ tokenizeQuery req.query.trim, objectPrototypeProps.contains t = false) →
      (∀ l ∈ likes, isValidColorHex l.color = true) →
      (∀ q a s c, (store q a s).candidate = some c → isValidColorHex c = true) →
      (∀ q a s c, c ∈ (store q a s).candidates → isValidColorHex c = true) →
      isSingleRawColorQueryJS req.query.trim = isSingleRawColorQuery req.query.trim ∧
        findRawColorNameJS req.query.trim = findRawColorName req.query.trim ∧
        ∃ resp, generate store likes req = some resp ∧ isValidColorHex resp.color = true := by
  intro store likes req hne hproto hlikes hstc hstcs
  refine ⟨isSingleRawColorQueryJS_eq hproto, findRawColorNameJS_eq hproto, ?_⟩
  by_cases hsingle : isSingleRawColorQuery req.query.trim = true
  · obtain ⟨t, entry, htok, hlook, hfindr⟩ := isSingleRawColorQuery_spec hsingle
    refine ⟨⟨entry.hex, Source.raw_exact⟩, ?_, colorNamesLookup_hex_valid hlook⟩
    simp [generate, hne, hsingle, rawNameFor, hfindr, hlook]
  · have hsingle' : isSingleRawColorQuery req.query.trim = false := by
      simpa using hsingle
    by_cases hlearn : req.mode = "" ∧ req.step = 0 ∧
        ((findLearned likes req.query.trim).map (fun l => l.color)).getD "" ≠ ""
    · obtain ⟨l, hl⟩ : ∃ l, findLearned likes req.query.trim = some l := by
        cases hfl : findLearned likes req.query.trim with
        | none =>
          exfalso
          rw [hfl] at hlearn
          simp at hlearn
        | some l => exact ⟨l, rfl⟩
      have hlmem : l ∈ likes := by
        have hmem := List.mem_of_find?_eq_some hl
        exact List.mem_reverse.1 hmem
      have hcolor : l.color ≠ "" := by
        have h3 := hlearn.2.2
        rw [hl] at h3
        simpa using h3
      refine ⟨⟨l.color, Source.learned⟩, ?_, hlikes l hlmem⟩
      simp [generate, hne, hsingle', hlearn.1, hlearn.2.1, hl, hcolor]
    · refine ⟨analysisPath
          (store req.query.trim
            (analysisQueryFor (rawNameFor req.query.trim) req.query.trim req.mode) req.step)
          req req.query.trim ((rawNameFor req.query.trim).bind colorNamesLookup)
          ((findRawColorName req.query.trim).bind
            (fun n => (colorNamesLookup n).map (fun e => e.range))), ?_, ?_⟩
      · simp [generate, hne, hsingle', hlearn]
      · exact analysisPath_valid _ _ _ _ _ (fun c hc => hstc _ _ _ c hc)
          (fun c hc => hstcs _ _ _ c hc)

/-- Concrete instance of the amended statement, with valid likes, a valid
provider candidate and a query whose only token avoids the prototype
members. -/
theorem c3_witness :
    (("sky" : String).trim ≠ "") ∧
      (∀ t ∈ tokenizeQuery ("sky" : String).trim,
        objectPrototypeProps.contains t = false) ∧
      (∀ l ∈ ([⟨"sea", "#00AA00"⟩] : List LikeEntry), isValidColorHex l.color = true) ∧
      isSingleRawColorQueryJS ("sky" : String).trim =
          isSingleRawColorQuery ("sky" : String).trim ∧
        findRawColorNameJS ("sky" : String).trim = findRawColorName ("sky" : String).trim ∧
        ∃ resp,
          generate (fun _ _ _ => StoreResult.mk (some "#0A0B0C") ["#0A0B0C"] 0)
              [⟨"sea", "#00AA00"⟩] ⟨"sky", none, "", 0⟩ = some resp ∧
            isValidColorHex resp.color = true :=
  ⟨by with_unfolding_all decide, by with_unfolding_all decide, by decide,
    c3_selection_always_completes_validly
      (fun _ _ _ => StoreResult.mk (some "#0A0B0C") ["#0A0B0C"] 0) [⟨"sea", "#00AA00"⟩]
      ⟨"sky", none, "", 0⟩ (by with_unfolding_all decide) (by with_unfolding_all decide)
      (by decide)
      (by
        intro q a s c hc
        simp only [] at hc
        rw [← Option.some.inj hc]
        decide)
      (by
        intro q a s c hc
        simp only [List.mem_singleton] at hc
        rw [hc]
        decide)⟩

/-! ## Hue-shift inversion claim -/

/-- C9 fails on the code for large degrees: both the global wrap (lines
277-279) and the `t` adjustments inside `hue2rgb` correct by one turn at
most, so a shift of 500 followed by a shift of -500 lands a full turn away on
one side — the blue channel of the round-trip result differs from the
original by 30/255, far beyond the rounding error of the hex/HSL
conversions (at most a few units per channel). -/
theorem c9_counterexample :
    shiftHue (shiftHue "#849966" 500 none) (-500) none = "#849948" ∧
      ("#849948" : String) ≠ "#849966" ∧
      20 ≤ (parseHexByte "#849966" 5 : ℤ) - (parseHexByte "#849948" 5 : ℤ) :=
  ⟨by with_unfolding_all decide, by decide, by decide⟩

/-! ### Evaluation lemmas for `hue2rgb` -/

lemma hue2rgb_low {p q t : ℚ} (h0 : 0 ≤ t) (h1 : t ≤ 1 / 6) :
    hue2rgb p q t = p + (q - p) * 6 * t := by
  unfold hue2rgb
  dsimp only
  rw [if_neg (not_lt.2 h0), if_neg (not_lt.2 (by linarith : t ≤ 1))]
  by_cases h : t < 1 / 6
  · rw [if_pos h]
  · have ht : t = 1 / 6 := le_antisymm h1 (not_lt.1 h)
    rw [if_neg h, if_pos (by rw [ht]; norm_num : t < 1 / 2), ht]
    ring

lemma hue2rgb_q {p q t : ℚ} (h0 : 1 / 6 ≤ t) (h1 : t ≤ 1 / 2) :
    hue2rgb p q t = q := by
  unfold hue2rgb
  dsimp only
  rw [if_neg (not_lt.2 (by linarith : (0 : ℚ) ≤ t)),
    if_neg (not_lt.2 (by linarith : t ≤ 1)), if_neg (not_lt.2 h0)]
  by_cases h : t < 1 / 2
  · rw [if_pos h]
  · have ht : t = 1 / 2 := le_antisymm h1 (not_lt.1 h)
    rw [if_neg h, if_pos (by rw [ht]; norm_num : t < 2 / 3), ht]
    ring

lemma hue2rgb_desc {p q t : ℚ} (h0 : 1 / 2 ≤ t) (h1 : t ≤ 2 / 3) :
    hue2rgb p q t = p + (q - p) * (2 / 3 - t) * 6 := by
  unfold hue2rgb
  dsimp only
  rw [if_neg (not_lt.2 (by linarith : (0 : ℚ) ≤ t)),
    if_neg (not_lt.2 (by linarith : t ≤ 1)),
    if_neg (not_lt.2 (by linarith : 1 / 6 ≤ t)), if_neg (not_lt.2 h0)]
  by_cases h : t < 2 / 3
  · rw [if_pos h]
  · have ht : t = 2 / 3 := le_antisymm h1 (not_lt.1 h)
    rw [if_neg h, ht]
    ring

lemma hue2rgb_p {p q t : ℚ} (h0 : 2 / 3 ≤ t) (h1 : t ≤ 1) :
    hue2rgb p q t = p := by
  unfold hue2rgb
  dsimp only
  rw [if_neg (not_lt.2 (by linarith : (0 : ℚ) ≤ t)), if_neg (not_lt.2 h1),
    if_neg (not_lt.2 (by linarith : 1 / 6 ≤ t)),
    if_neg (not_lt.2 (by linarith : 1 / 2 ≤ t)), if_neg (not_lt.2 h0)]

lemma hue2rgb_neg {p q t : ℚ} (h0 : -1 ≤ t) (h1 : t < 0) :
    hue2rgb p q t = hue2rgb p q (t + 1) := by
  unfold hue2rgb
  dsimp only
  rw [if_pos h1, if_neg (not_lt.2 (by linarith : (0 : ℚ) ≤ t + 1)),
    if_neg (not_lt.2 (by linarith : t + 1 ≤ 1))]

lemma hue2rgb_gt1 {p q t : ℚ} (h0 : 1 < t) (h1 : t ≤ 2) :
    hue2rgb p q t = hue2rgb p q (t - 1) := by
  unfold hue2rgb
  dsimp only
  rw [if_neg (not_lt.2 (by linarith : (0 : ℚ) ≤ t)), if_pos h0,
    if_neg (not_lt.2 (by linarith : (0 : ℚ) ≤ t - 1)),
    if_neg (not_lt.2 (by linarith : t - 1 ≤ 1))]

lemma hue2rgb_const {l t : ℚ} : hue2rgb l l t = l := by
  unfold hue2rgb
  simp [sub_self]

/-! ### The `q`/`p` values of `hslToRgb` recover max and min -/

lemma q_eq_max {mx mn : ℚ} (h0 : 0 ≤ mn) (hlt : mn < mx) (h1 : mx ≤ 1) :
    (if (mx + mn) / 2 < 1 / 2 then
        (mx + mn) / 2 *
          (1 + (if (mx + mn) / 2 > 1 / 2 then (mx - mn) / (2 - mx - mn)
                else (mx - mn) / (mx + mn)))
      else
        (mx + mn) / 2 +
            (if (mx + mn) / 2 > 1 / 2 then (mx - mn) / (2 - mx - mn)
             else (mx - mn) / (mx + mn)) -
          (mx + mn) / 2 *
            (if (mx + mn) / 2 > 1 / 2 then (mx - mn) / (2 - mx - mn)
             else (mx - mn) / (mx + mn))) = mx := by
  have hsum : 0 < mx + mn := by linarith
  have hsumne : mx + mn ≠ 0 := ne_of_gt hsum
  by_cases hl : (mx + mn) / 2 < 1 / 2
  · rw [if_pos hl, if_neg (by linarith : ¬(mx + mn) / 2 > 1 / 2)]
    field_simp
    ring
  · by_cases hl2 : (mx + mn) / 2 > 1 / 2
    · rw [if_neg hl, if_pos hl2]
      have h2 : 0 < 2 - mx - mn := by linarith
      have h2ne : 2 - mx - mn ≠ 0 := ne_of_gt h2
      field_simp
      ring
    · have hsum1 : mx + mn = 1 := by
        push_neg at hl hl2
        linarith
      rw [if_neg hl, if_neg hl2, hsum1]
      norm_num
      linarith

lemma hue2rgb_wrap_low {p q t : ℚ} (h0 : 1 ≤ t) (h1 : t ≤ 7 / 6) :
    hue2rgb p q t = p + (q - p) * 6 * (t - 1) := by
  by_cases h : 1 < t
  · rw [hue2rgb_gt1 h (by linarith), hue2rgb_low (by linarith) (by linarith)]
  · have ht : t = 1 := le_antisymm (not_lt.1 h) h0
    subst ht
    rw [hue2rgb_p (by norm_num) le_rfl]
    ring

/-- Applying `hslToRgb` to saturation/lightness of the extraction shape with
identified maximum and minimum channels reduces to `hue2rgb` with `p = mn`
and `q = mx`. -/
lemma hslToRgb_eval (mx mn H : ℚ) (h0 : 0 ≤ mn) (hlt : mn < mx) (h1 : mx ≤ 1) :
    hslToRgb H
        (if (mx + mn) / 2 > 1 / 2 then (mx - mn) / (2 - mx - mn) else (mx - mn) / (mx + mn))
        ((mx + mn) / 2) =
      (hue2rgb mn mx (H + 1 / 3), hue2rgb mn mx H, hue2rgb mn mx (H - 1 / 3)) := by
  unfold hslToRgb
  dsimp only
  rw [q_eq_max h0 hlt h1, show 2 * ((mx + mn) / 2) - mx = mn from by ring]

/-- Converting back the extracted hue, saturation and lightness of a colour
reproduces the colour exactly (in exact rational arithmetic). -/
theorem hsl_round_trip (r g b : ℚ) (hr0 : 0 ≤ r) (hr1 : r ≤ 1) (hg0 : 0 ≤ g) (hg1 : g ≤ 1)
    (hb0 : 0 ≤ b) (hb1 : b ≤ 1) :
    hslToRgb (rgbToHsl r g b).h (rgbToHsl r g b).s (rgbToHsl r g b).l = (r, g, b) := by
  have hMr := le_max_left r (max g b)
  have hMg : g ≤ max r (max g b) := le_trans (le_max_left g b) (le_max_right _ _)
  have hMb : b ≤ max r (max g b) := le_trans (le_max_right g b) (le_max_right _ _)
  by_cases hmxmn : max r (max g b) = min r (min g b)
  · have hmr : min r (min g b) ≤ r := min_le_left _ _
    have hmg : min r (min g b) ≤ g := le_trans (min_le_right _ _) (min_le_left _ _)
    have hmb : min r (min g b) ≤ b := le_trans (min_le_right _ _) (min_le_right _ _)
    have hre : r = max r (max g b) := le_antisymm hMr (by rw [hmxmn]; exact hmr)
    have hge : g = max r (max g b) := le_antisymm hMg (by rw [hmxmn]; exact hmg)
    have hbe : b = max r (max g b) := le_antisymm hMb (by rw [hmxmn]; exact hmb)
    have hgr : g = r := hge.trans hre.symm
    have hbr : b = r := hbe.trans hre.symm
    rw [hgr, hbr]
    have hhsl : rgbToHsl r r r = ⟨0, 0, r⟩ := by
      unfold rgbToHsl
      rw [jsMax_eq, jsMax_eq, jsMin_eq, jsMin_eq]
      simp only [max_self, min_self, if_pos rfl]
      exact congrArg (Hsl.mk 0 0) (by ring)
    rw [hhsl]
    unfold hslToRgb
    dsimp only
    rw [show (if (r : ℚ) < 1 / 2 then r * (1 + 0) else r + 0 - r * 0) = r from by
      split_ifs <;> ring]
    rw [show 2 * r - r = r from by ring]
    rw [hue2rgb_const, hue2rgb_const, hue2rgb_const]
  · by_cases hmaxr : max g b ≤ r
    · -- the maximum channel is r
      have hmx : max r (max g b) = r := max_eq_left hmaxr
      have hgr : g ≤ r := le_trans (le_max_left g b) hmaxr
      have hbr : b ≤ r := le_trans (le_max_right g b) hmaxr
      by_cases hgb : g < b
      · -- minimum is g, hue in the last sextant
        have hmn : min r (min g b) = g := by
          rw [min_eq_left hgb.le, min_eq_right hgr]
        have hner : ¬(r = g) := by
          intro h
          exact hmxmn (by rw [hmx, hmn, h])
        have hlt : g < r := lt_of_le_of_ne hgr (fun h => hner h.symm)
        have hd : (0 : ℚ) < r - g := sub_pos.2 hlt
        have hdne : r - g ≠ 0 := ne_of_gt hd
        have hx0 : (g - b) / (r - g) < 0 := div_neg_of_neg_of_pos (by linarith) hd
        have hx1 : -1 ≤ (g - b) / (r - g) := (le_div_iff hd).2 (by linarith)
        have hhsl : rgbToHsl r g b =
            ⟨((g - b) / (r - g) + 6) / 6,
              if (r + g) / 2 > 1 / 2 then (r - g) / (2 - r - g) else (r - g) / (r + g),
              (r + g) / 2⟩ := by
          unfold rgbToHsl
          rw [jsMax_eq, jsMax_eq, jsMin_eq, jsMin_eq, hmx, hmn]
          dsimp only
          rw [if_neg hner, if_pos (rfl : r = r), if_pos hgb]
        rw [hhsl]
        dsimp only
        rw [hslToRgb_eval r g _ hg0 hlt hr1]
        simp only [Prod.mk.injEq]
        refine ⟨?_, ?_, ?_⟩
        · rw [hue2rgb_gt1 (by linarith) (by linarith),
            hue2rgb_q (by linarith) (by linarith)]
        · rw [hue2rgb_p (by linarith) (by linarith)]
        · rw [hue2rgb_desc (by linarith) (by linarith)]
          field_simp
          try ring
      · -- minimum is b, hue in the first sextant
        push_neg at hgb
        have hmn : min r (min g b) = b := by
          rw [min_eq_right hgb, min_eq_right hbr]
        have hner : ¬(r = b) := by
          intro h
          exact hmxmn (by rw [hmx, hmn, h])
        have hlt : b < r := lt_of_le_of_ne hbr (fun h => hner h.symm)
        have hd : (0 : ℚ) < r - b := sub_pos.2 hlt
        have hdne : r - b ≠ 0 := ne_of_gt hd
        have hx0 : 0 ≤ (g - b) / (r - b) := div_nonneg (by linarith) hd.le
        have hx1 : (g - b) / (r - b) ≤ 1 := (div_le_one hd).2 (by linarith)
        have hhsl : rgbToHsl r g b =
            ⟨((g - b) / (r - b) + 0) / 6,
              if (r + b) / 2 > 1 / 2 then (r - b) / (2 - r - b) else (r - b) / (r + b),
              (r + b) / 2⟩ := by
          unfold rgbToHsl
          rw [jsMax_eq, jsMax_eq, jsMin_eq, jsMin_eq, hmx, hmn]
          dsimp only
          rw [if_neg hner, if_pos (rfl : r = r), if_neg (not_lt.2 hgb)]
        rw [hhsl]
        dsimp only
        rw [hslToRgb_eval r b _ hb0 hlt hr1]
        simp only [Prod.mk.injEq]
        refine ⟨?_, ?_, ?_⟩
        · rw [hue2rgb_q (by linarith) (by linarith)]
        · rw [hue2rgb_low (by linarith) (by linarith)]
          field_simp
          try ring
        · rw [hue2rgb_neg (by linarith) (by linarith),
            hue2rgb_p (by linarith) (by linarith)]
    · -- r is not the maximum
      push_neg at hmaxr
      by_cases hbg : b ≤ g
      · -- the maximum channel is g
        have hmgb : max g b = g := max_eq_left hbg
        have hrg : r < g := by rwa [hmgb] at hmaxr
        have hmx : max r (max g b) = g := by
          rw [hmgb]
          exact max_eq_right hrg.le
        have hnegr : ¬(g = r) := fun h => absurd h.symm (ne_of_lt hrg)
        by_cases hrb : r ≤ b
        · -- minimum is r, hue in the second sextant
          have hmn : min r (min g b) = r := by
            rw [min_eq_right hbg, min_eq_left hrb]
          have hlt : r < g := hrg
          have hd : (0 : ℚ) < g - r := sub_pos.2 hlt
          have hdne : g - r ≠ 0 := ne_of_gt hd
          have hx0 : 0 ≤ (b - r) / (g - r) := div_nonneg (by linarith) hd.le
          have hx1 : (b - r) / (g - r) ≤ 1 := (div_le_one hd).2 (by linarith)
          have hhsl : rgbToHsl r g b =
              ⟨((b - r) / (g - r) + 2) / 6,
                if (g + r) / 2 > 1 / 2 then (g - r) / (2 - g - r) else (g - r) / (g + r),
                (g + r) / 2⟩ := by
            unfold rgbToHsl
            rw [jsMax_eq, jsMax_eq, jsMin_eq, jsMin_eq, hmx, hmn]
            dsimp only
            rw [if_neg hnegr, if_neg hnegr, if_pos (rfl : g = g)]
          rw [hhsl]
          dsimp only
          rw [hslToRgb_eval g r _ hr0 hlt hg1]
          simp only [Prod.mk.injEq]
          refine ⟨?_, ?_, ?_⟩
          · rw [hue2rgb_p (by linarith) (by linarith)]
          · rw [hue2rgb_q (by linarith) (by linarith)]
          · rw [hue2rgb_low (by linarith) (by linarith)]
            field_simp
            try ring
        · -- minimum is b, hue in the third sextant
          push_neg at hrb
          have hmn : min r (min g b) = b := by
            rw [min_eq_right hbg, min_eq_right hrb.le]
          have hlt : b < g := lt_trans hrb hrg
          have hd : (0 : ℚ) < g - b := sub_pos.2 hlt
          have hdne : g - b ≠ 0 := ne_of_gt hd
          have hx0 : (b - r) / (g - b) < 0 := div_neg_of_neg_of_pos (by linarith) hd
          have hx1 : -1 ≤ (b - r) / (g - b) := (le_div_iff hd).2 (by linarith)
          have hnegb : ¬(g = b) := fun h => absurd h.symm (ne_of_lt hlt)
          have hhsl : rgbToHsl r g b =
              ⟨((b - r) / (g - b) + 2) / 6,
                if (g + b) / 2 > 1 / 2 then (g - b) / (2 - g - b) else (g - b) / (g + b),
                (g + b) / 2⟩ := by
            unfold rgbToHsl
            rw [jsMax_eq, jsMax_eq, jsMin_eq, jsMin_eq, hmx, hmn]
            dsimp only
            rw [if_neg hnegb, if_neg hnegr, if_pos (rfl : g = g)]
          rw [hhsl]
          dsimp only
          rw [hslToRgb_eval g b _ hb0 hlt hg1]
          simp only [Prod.mk.injEq]
          refine ⟨?_, ?_, ?_⟩
          · rw [hue2rgb_desc (by linarith) (by linarith)]
            field_simp
            try ring
          · rw [hue2rgb_q (by linarith) (by linarith)]
          · rw [hue2rgb_neg (by linarith) (by linarith),
              hue2rgb_p (by linarith) (by linarith)]
      · -- the maximum channel is b
        push_neg at hbg
        have hmgb : max g b = b := max_eq_right hbg.le
        have hrb : r < b := by rwa [hmgb] at hmaxr
        have hmx : max r (max g b) = b := by
          rw [hmgb]
          exact max_eq_right hrb.le
        by_cases hgr2 : g ≤ r
        · -- minimum is g, hue in the fifth sextant
          have hmn : min r (min g b) = g := by
            rw [min_eq_left hbg.le, min_eq_right hgr2]
          have hlt : g < b := hbg
          have hd : (0 : ℚ) < b - g := sub_pos.2 hlt
          have hdne : b - g ≠ 0 := ne_of_gt hd
          have hx0 : 0 ≤ (r - g) / (b - g) := div_nonneg (by linarith) hd.le
          have hx1 : (r - g) / (b - g) < 1 := (div_lt_one hd).2 (by linarith)
          have hnebg : ¬(b = g) := fun h => absurd h.symm (ne_of_lt hbg)
          have hnebr : ¬(b = r) := fun h => absurd h.symm (ne_of_lt hrb)
          have hhsl : rgbToHsl r g b =
              ⟨((r - g) / (b - g) + 4) / 6,
                if (b + g) / 2 > 1 / 2 then (b - g) / (2 - b - g) else (b - g) / (b + g),
                (b + g) / 2⟩ := by
            unfold rgbToHsl
            rw [jsMax_eq, jsMax_eq, jsMin_eq, jsMin_eq, hmx, hmn]
            dsimp only
            rw [if_neg hnebg, if_neg hnebr, if_neg hnebg]
          rw [hhsl]
          dsimp only
          rw [hslToRgb_eval b g _ hg0 hlt hb1]
          simp only [Prod.mk.injEq]
          refine ⟨?_, ?_, ?_⟩
          · rw [hue2rgb_wrap_low (by linarith) (by linarith)]
            field_simp
            try ring
          · rw [hue2rgb_p (by linarith) (by linarith)]
          · rw [hue2rgb_q (by linarith) (by linarith)]
        · -- minimum is r, hue in the fourth sextant
          push_neg at hgr2
          have hmn : min r (min g b) = r := by
            rw [min_eq_left hbg.le, min_eq_left hgr2.le]
          have hlt : r < b := hrb
          have hd : (0 : ℚ) < b - r := sub_pos.2 hlt
          have hdne : b - r ≠ 0 := ne_of_gt hd
          have hx0 : (r - g) / (b - r) < 0 := div_neg_of_neg_of_pos (by linarith) hd
          have hx1 : -1 ≤ (r - g) / (b - r) := (le_div_iff hd).2 (by linarith)
          have hnebg : ¬(b = g) := fun h => absurd h.symm (ne_of_lt hbg)
          have hnebr : ¬(b = r) := fun h => absurd h.symm (ne_of_lt hrb)
          have hhsl : rgbToHsl r g b =
              ⟨((r - g) / (b - r) + 4) / 6,
                if (b + r) / 2 > 1 / 2 then (b - r) / (2 - b - r) else (b - r) / (b + r),
                (b + r) / 2⟩ := by
            unfold rgbToHsl
            rw [jsMax_eq, jsMax_eq, jsMin_eq, jsMin_eq, hmx, hmn]
            dsimp only
            rw [if_neg hnebr, if_neg hnebr, if_neg hnebg]
          rw [hhsl]
          dsimp only
          rw [hslToRgb_eval b r _ hr0 hlt hb1]
          simp only [Prod.mk.injEq]
          refine ⟨?_, ?_, ?_⟩
          · rw [hue2rgb_p (by linarith) (by linarith)]
          · rw [hue2rgb_desc (by linarith) (by linarith)]
            field_simp
            try ring
          · rw [hue2rgb_q (by linarith) (by linarith)]

lemma hue2rgb_p_nearzero {p q t : ℚ} (h0 : -1 / 3 ≤ t) (h1 : t ≤ 0) :
    hue2rgb p q t = p := by
  by_cases ht : t < 0
  · rw [hue2rgb_neg (by linarith) ht, hue2rgb_p (by linarith) (by linarith)]
  · have h00 : t = 0 := le_antisymm h1 (not_lt.1 ht)
    subst h00
    rw [hue2rgb_low le_rfl (by norm_num)]
    ring

/-- Extracting hue, saturation and lightness back from a `hue2rgb` channel
triple with `p < q` recovers the input hue (with hue 1 normalising to 0), and
the extracted saturation/lightness are determined by `q + p` and `q - p`. -/
lemma rgbToHsl_hue2rgb_triple (p q h : ℚ) (hpq : p < q) (hh0 : 0 ≤ h) (hh1 : h ≤ 1) :
    rgbToHsl (hue2rgb p q (h + 1 / 3)) (hue2rgb p q h) (hue2rgb p q (h - 1 / 3)) =
      ⟨if h = 1 then 0 else h,
        if (q + p) / 2 > 1 / 2 then (q - p) / (2 - q - p) else (q - p) / (q + p),
        (q + p) / 2⟩ := by
  have hd : (0 : ℚ) < q - p := sub_pos.2 hpq
  have hdne : q - p ≠ 0 := ne_of_gt hd
  have hqnep : ¬(q = p) := fun hq => absurd hq.symm (ne_of_lt hpq)
  by_cases hone : h = 1
  · subst hone
    rw [hue2rgb_gt1 (by norm_num) (by norm_num),
      hue2rgb_q (by norm_num) (by norm_num),
      hue2rgb_p (by norm_num) le_rfl,
      hue2rgb_p (by norm_num) (by norm_num)]
    unfold rgbToHsl
    rw [jsMax_eq, jsMax_eq, jsMin_eq, jsMin_eq, max_self, min_self,
      max_eq_left hpq.le, min_eq_right hpq.le]
    dsimp only
    rw [if_neg hqnep, if_pos (rfl : q = q), if_neg (lt_irrefl p)]
    rw [if_pos (rfl : (1 : ℚ) = 1)]
    simp only [Hsl.mk.injEq, and_true]
    simp [sub_self]
  · by_cases hc1 : h ≤ 1 / 6
    · rw [hue2rgb_q (show (1 : ℚ) / 6 ≤ h + 1 / 3 by linarith)
          (show h + 1 / 3 ≤ 1 / 2 by linarith),
        hue2rgb_low hh0 hc1,
        hue2rgb_p_nearzero (show -1 / 3 ≤ h - 1 / 3 by linarith)
          (show h - 1 / 3 ≤ 0 by linarith)]
      have hgq : p + (q - p) * 6 * h ≤ q := by nlinarith
      have hpg : p ≤ p + (q - p) * 6 * h := by nlinarith
      unfold rgbToHsl
      rw [jsMax_eq, jsMax_eq, jsMin_eq, jsMin_eq,
        max_eq_left hpg, max_eq_left hgq, min_eq_right hpg, min_eq_right hpq.le]
      dsimp only
      rw [if_neg hqnep, if_pos (rfl : q = q), if_neg (not_lt.2 hpg)]
      rw [if_neg hone]
      simp only [Hsl.mk.injEq, and_true]
      field_simp
      try ring
    · push_neg at hc1
      by_cases hc2 : h ≤ 1 / 3
      · -- second sextant
        rw [hue2rgb_desc (show (1 : ℚ) / 2 ≤ h + 1 / 3 by linarith)
            (show h + 1 / 3 ≤ 2 / 3 by linarith),
          hue2rgb_q (show (1 : ℚ) / 6 ≤ h by linarith) (show h ≤ 1 / 2 by linarith),
          hue2rgb_p_nearzero (show -1 / 3 ≤ h - 1 / 3 by linarith)
            (show h - 1 / 3 ≤ 0 by linarith)]
        have hEq : p + (q - p) * (2 / 3 - (h + 1 / 3)) * 6 < q := by nlinarith
        have hpE : p ≤ p + (q - p) * (2 / 3 - (h + 1 / 3)) * 6 := by nlinarith
        unfold rgbToHsl
        rw [jsMax_eq, jsMax_eq, jsMin_eq, jsMin_eq,
          max_eq_left hpq.le, max_eq_right hEq.le, min_eq_right hpq.le, min_eq_right hpE]
        dsimp only
        rw [if_neg hqnep, if_neg (fun hq => absurd hq.symm (ne_of_lt hEq)),
          if_pos (rfl : q = q)]
        rw [if_neg hone]
        simp only [Hsl.mk.injEq, and_true]
        field_simp
        try ring
      · push_neg at hc2
        by_cases hc3 : h ≤ 1 / 2
        · -- third sextant
          rw [hue2rgb_p (show (2 : ℚ) / 3 ≤ h + 1 / 3 by linarith)
              (show h + 1 / 3 ≤ 1 by linarith),
            hue2rgb_q (show (1 : ℚ) / 6 ≤ h by linarith) (show h ≤ 1 / 2 by linarith),
            hue2rgb_low (show (0 : ℚ) ≤ h - 1 / 3 by linarith)
              (show h - 1 / 3 ≤ 1 / 6 by linarith)]
          have hpF : p ≤ p + (q - p) * 6 * (h - 1 / 3) := by nlinarith
          have hFq : p + (q - p) * 6 * (h - 1 / 3) ≤ q := by nlinarith
          unfold rgbToHsl
          rw [jsMax_eq, jsMax_eq, jsMin_eq, jsMin_eq,
            max_eq_left hFq, max_eq_right hpq.le, min_eq_right hFq, min_eq_left hpF]
          dsimp only
          rw [if_neg hqnep, if_neg hqnep, if_pos (rfl : q = q)]
          rw [if_neg hone]
          simp only [Hsl.mk.injEq, and_true]
          field_simp
          try ring
        · push_neg at hc3
          by_cases hc4 : h ≤ 2 / 3
          · -- fourth sextant
            rw [hue2rgb_p (show (2 : ℚ) / 3 ≤ h + 1 / 3 by linarith)
                (show h + 1 / 3 ≤ 1 by linarith),
              hue2rgb_desc (show (1 : ℚ) / 2 ≤ h by linarith) (show h ≤ 2 / 3 by linarith),
              hue2rgb_q (show (1 : ℚ) / 6 ≤ h - 1 / 3 by linarith)
                (show h - 1 / 3 ≤ 1 / 2 by linarith)]
            have hGq : p + (q - p) * (2 / 3 - h) * 6 < q := by nlinarith
            have hpG : p ≤ p + (q - p) * (2 / 3 - h) * 6 := by nlinarith
            unfold rgbToHsl
            rw [jsMax_eq, jsMax_eq, jsMin_eq, jsMin_eq,
              max_eq_right hGq.le, max_eq_right hpq.le, min_eq_left hGq.le, min_eq_left hpG]
            dsimp only
            rw [if_neg hqnep, if_neg hqnep,
              if_neg (fun hq => absurd hq.symm (ne_of_lt hGq))]
            rw [if_neg hone]
            simp only [Hsl.mk.injEq, and_true]
            field_simp
            try ring
          · push_neg at hc4
            by_cases h56 : h = 5 / 6
            · -- boundary between the fifth and sixth sextants
              subst h56
              rw [hue2rgb_wrap_low (show (1 : ℚ) ≤ 5 / 6 + 1 / 3 by norm_num)
                  (show (5 : ℚ) / 6 + 1 / 3 ≤ 7 / 6 by norm_num),
                hue2rgb_p (show (2 : ℚ) / 3 ≤ 5 / 6 by norm_num)
                  (show (5 : ℚ) / 6 ≤ 1 by norm_num),
                hue2rgb_q (show (1 : ℚ) / 6 ≤ 5 / 6 - 1 / 3 by norm_num)
                  (show (5 : ℚ) / 6 - 1 / 3 ≤ 1 / 2 by norm_num)]
              rw [show p + (q - p) * 6 * (5 / 6 + 1 / 3 - 1) = q from by ring]
              unfold rgbToHsl
              rw [jsMax_eq, jsMax_eq, jsMin_eq, jsMin_eq,
                max_eq_right hpq.le, max_self, min_eq_left hpq.le, min_eq_right hpq.le]
              dsimp only
              rw [if_neg hqnep, if_pos (rfl : q = q), if_pos hpq]
              rw [if_neg hone]
              simp only [Hsl.mk.injEq, and_true]
              field_simp
              try ring
            · by_cases hc5 : h ≤ 5 / 6
              · -- fifth sextant, strictly below the boundary
                have hc5' : h < 5 / 6 := lt_of_le_of_ne hc5 h56
                rw [hue2rgb_wrap_low (show (1 : ℚ) ≤ h + 1 / 3 by linarith)
                    (show h + 1 / 3 ≤ 7 / 6 by linarith),
                  hue2rgb_p (show (2 : ℚ) / 3 ≤ h by linarith) (show h ≤ 1 by linarith),
                  hue2rgb_q (show (1 : ℚ) / 6 ≤ h - 1 / 3 by linarith)
                    (show h - 1 / 3 ≤ 1 / 2 by linarith)]
                have hRq : p + (q - p) * 6 * (h + 1 / 3 - 1) < q := by nlinarith
                have hpR : p ≤ p + (q - p) * 6 * (h + 1 / 3 - 1) := by nlinarith
                unfold rgbToHsl
                rw [jsMax_eq, jsMax_eq, jsMin_eq, jsMin_eq,
                  max_eq_right hpq.le, max_eq_right hRq.le,
                  min_eq_left hpq.le, min_eq_right hpR]
                dsimp only
                rw [if_neg hqnep, if_neg (fun hq => absurd hq.symm (ne_of_lt hRq)),
                  if_neg hqnep]
                rw [if_neg hone]
                simp only [Hsl.mk.injEq, and_true]
                field_simp
                try ring
              · -- sixth sextant
                push_neg at hc5
                have hlt1 : h < 1 := lt_of_le_of_ne hh1 hone
                rw [hue2rgb_gt1 (show (1 : ℚ) < h + 1 / 3 by linarith)
                    (show h + 1 / 3 ≤ 2 by linarith),
                  hue2rgb_q (show (1 : ℚ) / 6 ≤ h + 1 / 3 - 1 by linarith)
                    (show h + 1 / 3 - 1 ≤ 1 / 2 by linarith),
                  hue2rgb_p (show (2 : ℚ) / 3 ≤ h by linarith) (show h ≤ 1 by linarith),
                  hue2rgb_desc (show (1 : ℚ) / 2 ≤ h - 1 / 3 by linarith)
                    (show h - 1 / 3 ≤ 2 / 3 by linarith)]
                have hpB : p < p + (q - p) * (2 / 3 - (h - 1 / 3)) * 6 := by nlinarith
                have hBq : p + (q - p) * (2 / 3 - (h - 1 / 3)) * 6 ≤ q := by nlinarith
                unfold rgbToHsl
                rw [jsMax_eq, jsMax_eq, jsMin_eq, jsMin_eq,
                  max_eq_right hpB.le, max_eq_left hBq, min_eq_left hpB.le,
                  min_eq_right hpq.le]
                dsimp only
                rw [if_neg hqnep, if_pos (rfl : q = q), if_pos hpB]
                rw [if_neg hone]
                simp only [Hsl.mk.injEq, and_true]
                field_simp
                try ring

lemma rgbToHsl_achromatic (r : ℚ) : rgbToHsl r r r = ⟨0, 0, r⟩ := by
  unfold rgbToHsl
  rw [jsMax_eq, jsMax_eq, jsMin_eq, jsMin_eq]
  simp only [max_self, min_self, if_pos rfl]
  exact congrArg (Hsl.mk 0 0) (by ring)

lemma hslToRgb_achromatic (h l : ℚ) : hslToRgb h 0 l = (l, l, l) := by
  unfold hslToRgb
  dsimp only
  rw [show (if l < 1 / 2 then l * (1 + 0) else l + 0 - l * 0) = l from by split_ifs <;> ring]
  rw [show 2 * l - l = l from by ring]
  rw [hue2rgb_const, hue2rgb_const, hue2rgb_const]

lemma all_eq_of_max_eq_min {r g b : ℚ} (hmxmn : max r (max g b) = min r (min g b)) :
    g = r ∧ b = r := by
  have hMr := le_max_left r (max g b)
  have hMg : g ≤ max r (max g b) := le_trans (le_max_left g b) (le_max_right _ _)
  have hMb : b ≤ max r (max g b) := le_trans (le_max_right g b) (le_max_right _ _)
  have hmr : min r (min g b) ≤ r := min_le_left _ _
  have hmg : min r (min g b) ≤ g := le_trans (min_le_right _ _) (min_le_left _ _)
  have hmb : min r (min g b) ≤ b := le_trans (min_le_right _ _) (min_le_right _ _)
  have hre : r = max r (max g b) := le_antisymm hMr (by rw [hmxmn]; exact hmr)
  have hge : g = max r (max g b) := le_antisymm hMg (by rw [hmxmn]; exact hmg)
  have hbe : b = max r (max g b) := le_antisymm hMb (by rw [hmxmn]; exact hmb)
  exact ⟨hge.trans hre.symm, hbe.trans hre.symm⟩

/-- Bounds on the extracted hue, saturation and lightness of a chromatic
colour with channels in `[0,1]`. -/
lemma rgbToHsl_bounds (r g b : ℚ) (hr0 : 0 ≤ r) (hr1 : r ≤ 1) (hg0 : 0 ≤ g) (hg1 : g ≤ 1)
    (hb0 : 0 ≤ b) (hb1 : b ≤ 1) (hne : ¬max r (max g b) = min r (min g b)) :
    0 ≤ (rgbToHsl r g b).h ∧ (rgbToHsl r g b).h < 1 ∧ 0 < (rgbToHsl r g b).s ∧
      0 < (rgbToHsl r g b).l ∧ (rgbToHsl r g b).l < 1 := by
  have hm0 : 0 ≤ min r (min g b) := le_min hr0 (le_min hg0 hb0)
  have hM1 : max r (max g b) ≤ 1 := max_le hr1 (max_le hg1 hb1)
  have hmM : min r (min g b) < max r (max g b) :=
    lt_of_le_of_ne (le_trans (min_le_left _ _) (le_max_left _ _)) (fun h => hne h.symm)
  have hMr := le_max_left r (max g b)
  have hMg : g ≤ max r (max g b) := le_trans (le_max_left g b) (le_max_right _ _)
  have hMb : b ≤ max r (max g b) := le_trans (le_max_right g b) (le_max_right _ _)
  have hmr : min r (min g b) ≤ r := min_le_left _ _
  have hmg : min r (min g b) ≤ g := le_trans (min_le_right _ _) (min_le_left _ _)
  have hmb : min r (min g b) ≤ b := le_trans (min_le_right _ _) (min_le_right _ _)
  have hd : (0 : ℚ) < max r (max g b) - min r (min g b) := sub_pos.2 hmM
  have hsum : (0 : ℚ) < max r (max g b) + min r (min g b) := by linarith
  have hsum2 : max r (max g b) + min r (min g b) < 2 := by linarith
  unfold rgbToHsl
  rw [jsMax_eq, jsMax_eq, jsMin_eq, jsMin_eq, if_neg hne]
  dsimp only
  refine ⟨?_, ?_, ?_, by linarith, by linarith⟩
  · split_ifs with h1 h2 h3
    · have hx : (-1 : ℚ) ≤ (g - b) / (max r (max g b) - min r (min g b)) :=
        (le_div_iff hd).2 (by linarith)
      linarith
    · have hx : (0 : ℚ) ≤ (g - b) / (max r (max g b) - min r (min g b)) :=
        div_nonneg (by linarith [not_lt.1 h2]) hd.le
      linarith
    · have hx : (-1 : ℚ) ≤ (b - r) / (max r (max g b) - min r (min g b)) :=
        (le_div_iff hd).2 (by linarith)
      linarith
    · have hx : (-1 : ℚ) ≤ (r - g) / (max r (max g b) - min r (min g b)) :=
        (le_div_iff hd).2 (by linarith)
      linarith
  · split_ifs with h1 h2 h3
    · have hx : (g - b) / (max r (max g b) - min r (min g b)) < 0 :=
        div_neg_of_neg_of_pos (by linarith) hd
      linarith
    · have hx : (g - b) / (max r (max g b) - min r (min g b)) ≤ 1 :=
        (div_le_one hd).2 (by linarith)
      linarith
    · have hx : (b - r) / (max r (max g b) - min r (min g b)) ≤ 1 :=
        (div_le_one hd).2 (by linarith)
      linarith
    · have hx : (r - g) / (max r (max g b) - min r (min g b)) ≤ 1 :=
        (div_le_one hd).2 (by linarith)
      linarith
  · split_ifs with h1
    · exact div_pos hd (by linarith)
    · exact div_pos hd (by linarith)

/-- Hue `1` and hue `0` denote the same point of the colour wheel: `hslToRgb`
renders them to the same channel triple. -/
lemma hslToRgb_one (s l : ℚ) : hslToRgb 1 s l = hslToRgb 0 s l := by
  unfold hslToRgb
  dsimp only
  simp only [Prod.mk.injEq]
  refine ⟨?_, ?_, ?_⟩
  · rw [hue2rgb_gt1 (by norm_num : (1 : ℚ) < 1 + 1 / 3) (by norm_num : (1 : ℚ) + 1 / 3 ≤ 2),
      show (1 : ℚ) + 1 / 3 - 1 = 0 + 1 / 3 from by norm_num]
  · rw [hue2rgb_p (by norm_num : (2 : ℚ) / 3 ≤ 1) le_rfl,
      hue2rgb_low (le_refl (0 : ℚ)) (by norm_num : (0 : ℚ) ≤ 1 / 6)]
    ring
  · rw [show (1 : ℚ) - 1 / 3 = 0 - 1 / 3 + 1 from by norm_num]
    exact (hue2rgb_neg (by norm_num : (-1 : ℚ) ≤ 0 - 1 / 3)
      (by norm_num : (0 : ℚ) - 1 / 3 < 0)).symm

/-- Rendering an HSL value with positive saturation and intermediate
lightness to RGB and extracting HSL again recovers saturation and lightness
exactly, and the hue up to the `1` to `0` normalisation. -/
lemma rgb_round_trip (h s l : ℚ) (hh0 : 0 ≤ h) (hh1 : h ≤ 1) (hs : 0 < s)
    (hl0 : 0 < l) (hl1 : l < 1) :
    rgbToHsl (hslToRgb h s l).1 (hslToRgb h s l).2.1 (hslToRgb h s l).2.2 =
      ⟨if h = 1 then 0 else h, s, l⟩ := by
  have hpq : 2 * l - (if l < 1 / 2 then l * (1 + s) else l + s - l * s) <
      (if l < 1 / 2 then l * (1 + s) else l + s - l * s) := by
    split_ifs with hL
    · nlinarith [mul_pos hl0 hs]
    · nlinarith [mul_pos hs (sub_pos.2 hl1)]
  unfold hslToRgb
  dsimp only
  rw [rgbToHsl_hue2rgb_triple _ _ h hpq hh0 hh1,
    show (if l < 1 / 2 then l * (1 + s) else l + s - l * s) +
        (2 * l - (if l < 1 / 2 then l * (1 + s) else l + s - l * s)) = 2 * l from by ring]
  simp only [Hsl.mk.injEq]
  refine ⟨trivial, ?_, by ring⟩
  by_cases hL : l < 1 / 2
  · rw [if_pos hL, if_neg (not_lt.2 (by linarith : 2 * l / 2 ≤ 1 / 2)),
      div_eq_iff (ne_of_gt (by linarith : (0 : ℚ) < 2 * l))]
    ring
  · rw [if_neg hL]
    by_cases hC : 2 * l / 2 > 1 / 2
    · rw [if_pos hC,
        div_eq_iff (ne_of_gt (by linarith :
          (0 : ℚ) < 2 - (l + s - l * s) - (2 * l - (l + s - l * s))))]
      ring
    · rw [if_neg hC]
      have hle : l = 1 / 2 := le_antisymm (by linarith [not_lt.1 hC]) (not_lt.1 hL)
      rw [hle, div_eq_iff (by norm_num : (2 : ℚ) * (1 / 2) ≠ 0)]
      ring

/-- Applying the global wrap after a shift by `d` on the 255-scale and then
again after the reverse shift by `-d` (through the `1` to `0` hue
normalisation of the extraction) restores the original hue, except that a
zero hue can come back as the equivalent wheel position `255`. -/
lemma wrapGlobal_unwrap (h255 d : ℚ) (h0 : 0 ≤ h255) (h1 : h255 < 255)
    (hd0 : -255 ≤ d) (hd1 : d ≤ 255) :
    wrapGlobal ((if wrapGlobal (h255 + d) / 255 = 1 then 0
        else wrapGlobal (h255 + d) / 255) * 255 + -d) = h255 ∨
      (h255 = 0 ∧
        wrapGlobal ((if wrapGlobal (h255 + d) / 255 = 1 then 0
          else wrapGlobal (h255 + d) / 255) * 255 + -d) = 255) := by
  by_cases hc : h255 + d > 255
  · left
    have hW : wrapGlobal (h255 + d) = h255 + d - 255 := by
      unfold wrapGlobal
      rw [if_pos hc]
    have hne1 : ¬((h255 + d - 255) / 255 = 1) := by
      rw [div_eq_iff (by norm_num : (255 : ℚ) ≠ 0)]
      intro hx
      linarith
    rw [hW, if_neg hne1, div_mul_cancel₀ _ (by norm_num : (255 : ℚ) ≠ 0)]
    unfold wrapGlobal
    rw [if_neg (not_lt.2 (by linarith : h255 + d - 255 + -d ≤ 255)),
      if_pos (by linarith : h255 + d - 255 + -d < 0)]
    ring
  · by_cases hc2 : h255 + d < 0
    · have hW : wrapGlobal (h255 + d) = h255 + d + 255 := by
        unfold wrapGlobal
        rw [if_neg hc, if_pos hc2]
      have hne1 : ¬((h255 + d + 255) / 255 = 1) := by
        rw [div_eq_iff (by norm_num : (255 : ℚ) ≠ 0)]
        intro hx
        linarith
      rw [hW, if_neg hne1, div_mul_cancel₀ _ (by norm_num : (255 : ℚ) ≠ 0)]
      unfold wrapGlobal
      by_cases hz : h255 + d + 255 + -d > 255
      · left
        rw [if_pos hz]
        ring
      · right
        have h00 : h255 = 0 := le_antisymm (by linarith [not_lt.1 hz]) h0
        refine ⟨h00, ?_⟩
        rw [if_neg hz, if_neg (not_lt.2 (by linarith : (0 : ℚ) ≤ h255 + d + 255 + -d))]
        linarith
    · left
      have hW : wrapGlobal (h255 + d) = h255 + d := by
        unfold wrapGlobal
        rw [if_neg hc, if_neg hc2]
      rw [hW]
      by_cases hx1 : (h255 + d) / 255 = 1
      · have hx255 : h255 + d = 255 := by
          rw [div_eq_iff (by norm_num : (255 : ℚ) ≠ 0)] at hx1
          linarith
        rw [if_pos hx1]
        unfold wrapGlobal
        rw [if_neg (not_lt.2 (by linarith : (0 : ℚ) * 255 + -d ≤ 255)),
          if_pos (by linarith : (0 : ℚ) * 255 + -d < 0)]
        linarith
      · rw [if_neg hx1, div_mul_cancel₀ _ (by norm_num : (255 : ℚ) ≠ 0)]
        unfold wrapGlobal
        rw [if_neg (not_lt.2 (by linarith [not_lt.1 hc] : h255 + d + -d ≤ 255)),
          if_neg (not_lt.2 (by linarith [not_lt.1 hc2] : (0 : ℚ) ≤ h255 + d + -d))]
        ring

/-- **C9.** The spec claims a hue shift by `degree` followed by one by
`-degree` restores the original colour up to rounding. As stated this fails:
`c9_counterexample` rounds each intermediate channel to a hex byte, and the
composite can move a channel (there by 30/255). Amended: for the exact
arithmetic core of `shiftHue` (everything except the final per-channel
`Math.round` quantisation), a global-wrap shift by any `degree` in
`[-255, 255]` followed by the reverse shift by `-degree` restores all three
channels exactly. -/
theorem c9_exact_shift_inversion (r g b d : ℚ) (hr0 : 0 ≤ r) (hr1 : r ≤ 1)
    (hg0 : 0 ≤ g) (hg1 : g ≤ 1) (hb0 : 0 ≤ b) (hb1 : b ≤ 1)
    (hd0 : -255 ≤ d) (hd1 : d ≤ 255) :
    shiftHueCore (shiftHueCore r g b d none).1 (shiftHueCore r g b d none).2.1
      (shiftHueCore r g b d none).2.2 (-d) none = (r, g, b) := by
  have hcore : ∀ x y z e : ℚ, shiftHueCore x y z e none =
      hslToRgb (wrapGlobal ((rgbToHsl x y z).h * 255 + e) / 255)
        (rgbToHsl x y z).s (rgbToHsl x y z).l := fun x y z e => rfl
  by_cases hmxmn : max r (max g b) = min r (min g b)
  · obtain ⟨hgr, hbr⟩ := all_eq_of_max_eq_min hmxmn
    rw [hgr, hbr]
    have hach : ∀ e : ℚ, shiftHueCore r r r e none = (r, r, r) := by
      intro e
      rw [hcore, rgbToHsl_achromatic]
      exact hslToRgb_achromatic _ _
    rw [hach d]
    exact hach (-d)
  · obtain ⟨hH0, hH1, hS, hL0, hL1⟩ :=
      rgbToHsl_bounds r g b hr0 hr1 hg0 hg1 hb0 hb1 hmxmn
    have hw0 : 0 ≤ wrapGlobal ((rgbToHsl r g b).h * 255 + d) := by
      unfold wrapGlobal
      split_ifs <;> linarith
    have hw1 : wrapGlobal ((rgbToHsl r g b).h * 255 + d) ≤ 255 := by
      unfold wrapGlobal
      split_ifs <;> linarith
    rw [hcore r g b d, hcore,
      rgb_round_trip _ _ _ (div_nonneg hw0 (by norm_num))
        ((div_le_one (by norm_num)).2 hw1) hS hL0 hL1]
    dsimp only
    rcases wrapGlobal_unwrap ((rgbToHsl r g b).h * 255) d
        (mul_nonneg hH0 (by norm_num)) (by linarith) hd0 hd1 with hkey | ⟨hzero, hkey⟩
    · rw [hkey, show (rgbToHsl r g b).h * 255 / 255 = (rgbToHsl r g b).h from by ring]
      exact hsl_round_trip r g b hr0 hr1 hg0 hg1 hb0 hb1
    · rw [hkey, show (255 : ℚ) / 255 = 1 from by norm_num, hslToRgb_one]
      have hH00 : (rgbToHsl r g b).h = 0 := by linarith
      rw [show (0 : ℚ) = (rgbToHsl r g b).h from hH00.symm]
      exact hsl_round_trip r g b hr0 hr1 hg0 hg1 hb0 hb1

/-- Concrete instance of the amended C9 statement: shifting pure red by 10
and back by -10 in the exact core is the identity. -/
theorem c9_witness :
    shiftHueCore (shiftHueCore 1 0 0 10 none).1 (shiftHueCore 1 0 0 10 none).2.1
      (shiftHueCore 1 0 0 10 none).2.2 (-10) none = ((1 : ℚ), (0 : ℚ), (0 : ℚ)) :=
  c9_exact_shift_inversion 1 0 0 10 (by norm_num) (by norm_num) (by norm_num)
    (by norm_num) (by norm_num) (by norm_num) (by norm_num) (by norm_num)
